import Mathlib

/-!
Verification of the column-inference and enrichment pipeline of `dashboard.py`.

This file gives a shallow embedding of the `load_data` function of
`dashboard.py` (lines 27-94) and of the relevant control flow of the
"2. ANALYSIS" page (lines 128-341), and proves or refutes the claims of the
specification about them.

Modelling conventions:
* A pandas `DataFrame` is a `Table`: a header (list of column names) together
  with a list of rows, each row a list of cells.
* A cell is missing (`NaN`/`NaT`), a rational number (modelling the float
  values of the CSV), a string, or a date (`datetime64` value).
* `pd.to_datetime` is modelled by a parser parameter `p : Cell → DRes`:
  on a non-missing cell it either returns a date (`DRes.ok`), returns `NaT`
  (`DRes.nat`, e.g. for empty strings), or raises (`DRes.err`).  A missing
  cell always maps to `NaT`, as in pandas.  The vectorised call
  `pd.to_datetime(series)` raises as soon as one element raises; the raise is
  caught by the `except` clause of `load_data`, which calls `st.stop()`:
  this is modelled by `load_data` returning `none`.
* Series arithmetic (`(df[a] + df[b]) / 2`) is modelled on cells with the
  pandas missing-value propagation: any operation involving a missing value
  is missing.  (Operations that would raise a `TypeError` in pandas, such as
  dividing a string by two, are also modelled as missing; no claim concerns
  such mixed-type columns.)
-/

set_option autoImplicit false

/-- Fuel-driven Euclid recursion (structural in the fuel, so that the
kernel can evaluate it; the fuel `a + 1` always suffices). -/
def gcdF : Nat → Nat → Nat → Nat
  | 0, _, b => b
  | _ + 1, 0, b => b
  | f + 1, a + 1, b => gcdF f (b % (a + 1)) (a + 1)

/-- Greatest common divisor, executable in the kernel. -/
def natGcd (a b : Nat) : Nat := gcdF (a + 1) a b

/-- An exact rational number (numerator, positive denominator), modelling
the numeric values of the CSV.  All operations normalize, so equal values
are structurally equal. -/
structure Frac where
  num : Int
  den : Nat
deriving DecidableEq, Repr

/-- Normalized construction of a rational from a numerator and a (positive)
denominator. -/
def qMk (n : Int) (d : Nat) : Frac :=
  let g := natGcd n.natAbs d
  if g = 0 then ⟨0, 1⟩ else ⟨n / (g : Int), d / g⟩

instance (n : Nat) : OfNat Frac n := ⟨⟨Int.ofNat n, 1⟩⟩

instance : Neg Frac := ⟨fun q => ⟨-q.num, q.den⟩⟩

instance : LE Frac := ⟨fun a b => a.num * (b.den : Int) ≤ b.num * (a.den : Int)⟩

instance (a b : Frac) : Decidable (a ≤ b) := Int.decLe _ _

/-- Rational of a natural number. -/
def Frac.ofNat (n : Nat) : Frac := ⟨Int.ofNat n, 1⟩

/-- Exact rational addition. -/
def Frac.add (a b : Frac) : Frac :=
  qMk (a.num * (b.den : Int) + b.num * (a.den : Int)) (a.den * b.den)

/-- Exact rational subtraction. -/
def Frac.sub (a b : Frac) : Frac :=
  qMk (a.num * (b.den : Int) - b.num * (a.den : Int)) (a.den * b.den)

/-- Exact rational halving (`x / 2`). -/
def Frac.half (a : Frac) : Frac := qMk a.num (a.den * 2)

/-- Exact division of a rational by a natural number. -/
def Frac.divNat (a : Frac) (k : Nat) : Frac := qMk a.num (a.den * k)

/-- Sum of a list of rationals. -/
def fracSum (l : List Frac) : Frac := l.foldr Frac.add 0

/-- A calendar date, as carried by a pandas `Timestamp` (year, month, day). -/
structure YMD where
  year : Nat
  month : Nat
  day : Nat
deriving DecidableEq, Repr

/-- One cell of a data frame: missing (`NaN`/`NaT`), a number, a string, or a
date value. -/
inductive Cell where
  | na
  | num (q : Frac)
  | str (s : String)
  | date (d : YMD)
deriving DecidableEq, Repr

/-- Result of `pd.to_datetime` on one value: a date, `NaT`, or a raised
parse exception. -/
inductive DRes where
  | ok (d : YMD)
  | nat
  | err
deriving DecidableEq, Repr

/-- `pd.to_datetime` on one cell, given the library's behaviour `p` on
non-missing values: a missing value is always mapped to `NaT`. -/
def toDatetime (p : Cell → DRes) : Cell → DRes
  | Cell.na => DRes.nat
  | c => p c

/-- The cell stored in the `Date` column for one parse result (`NaT` is a
missing value; `err` never reaches the column because the raise aborts the
load first). -/
def dresCell : DRes → Cell
  | DRes.ok d => Cell.date d
  | DRes.nat => Cell.na
  | DRes.err => Cell.na

/-- Lower-cased character list of a string (`col.lower()`). -/
def lowerChars (s : String) : List Char :=
  s.toList.map Char.toLower

/-- `pat` is a leading segment of `l` (auxiliary for substring search). -/
def leadsList (pat : List Char) : List Char → Bool :=
  fun l =>
    match pat, l with
    | [], _ => true
    | _ :: _, [] => false
    | a :: as, b :: bs => a == b && leadsList as bs

/-- `pat` occurs as a contiguous substring of `l` (Python's `in` on strings). -/
def hasSubList (pat : List Char) : List Char → Bool
  | [] => pat.isEmpty
  | b :: bs => leadsList pat (b :: bs) || hasSubList pat bs

/-- Python `x in col.lower()` for a lower-case literal `x`. -/
def nameHas (col : String) (pat : String) : Bool :=
  hasSubList pat.toList (lowerChars col)

/-- Line 33: `'date' in col.lower() or 'time' in col.lower()`. -/
def isDateName (col : String) : Bool :=
  nameHas col "date" || nameHas col "time"

/-- Line 53: `any(x in col.lower() for x in ['temp', 't_', 'tx', 'tn', 'tg'])`. -/
def isTempName (col : String) : Bool :=
  ["temp", "t_", "tx", "tn", "tg"].any (nameHas col)

/-- Line 56: `any(x in col.lower() for x in ['precip', 'rain', 'rr', 'pluvio', 'pluie'])`. -/
def isPrecipName (col : String) : Bool :=
  ["precip", "rain", "rr", "pluvio", "pluie"].any (nameHas col)

/-- Line 61: `'mean' in col.lower() or 'avg' in col.lower() or 'tg' in col.lower() or 'moy' in col.lower()`. -/
def isMeanName (col : String) : Bool :=
  ["mean", "avg", "tg", "moy"].any (nameHas col)

/-- Line 71: `'max' in col.lower() or 'tx' in col.lower()`. -/
def isMaxName (col : String) : Bool :=
  ["max", "tx"].any (nameHas col)

/-- Line 76: `'min' in col.lower() or 'tn' in col.lower()`. -/
def isMinName (col : String) : Bool :=
  ["min", "tn"].any (nameHas col)

/-- A data frame: column names plus rows of cells. -/
structure Table where
  header : List String
  rows : List (List Cell)
deriving DecidableEq, Repr

/-- Every row has exactly one cell per header entry (true of any frame
produced by `pd.read_csv`). -/
def Table.WF (t : Table) : Prop :=
  ∀ r ∈ t.rows, r.length = t.header.length

instance (t : Table) : Decidable t.WF := by
  unfold Table.WF
  infer_instance

/-- Index of the first column with the given name, if any. -/
def idxOfCol (name : String) : List String → Option Nat
  | [] => none
  | c :: cs => if c = name then some 0 else (idxOfCol name cs).map (· + 1)

/-- Index of a named column of a table. -/
def Table.colIdx (t : Table) (name : String) : Option Nat :=
  idxOfCol name t.header

/-- `df[name]`: the series of the first column with that name (the empty
series if the column does not exist; every use in the pipeline is on an
existing column). -/
def Table.getCol (t : Table) (name : String) : List Cell :=
  match t.colIdx name with
  | some i => t.rows.map (fun r => r.getD i Cell.na)
  | none => []

/-- `df.iloc[:, 0]`: the first column by position. -/
def Table.firstCol (t : Table) : List Cell :=
  t.rows.map (fun r => r.getD 0 Cell.na)

/-- One row's part of a series assignment: overwrite the cell at an existing
column's index, or append a cell for a new column. -/
def rowWrite (tgt : Option Nat) (v : Cell) (r : List Cell) : List Cell :=
  match tgt with
  | some i => r.set i v
  | none => r ++ [v]

/-- `df[name] = series`: pandas replaces an existing column in place and
appends a new column at the end of the frame. -/
def Table.setColL (t : Table) (name : String) (vals : List Cell) : Table :=
  { header := if (t.colIdx name).isSome then t.header else t.header ++ [name]
    rows := List.zipWith (fun r v => rowWrite (t.colIdx name) v r) t.rows vals }

/-- Line 33: the columns whose name contains `date` or `time`. -/
def dateColsOf (t : Table) : List String :=
  t.header.filter isDateName

/-- Lines 34-38: the series that is fed to `pd.to_datetime` — the first
date-like column if one exists, else the first column of the frame. -/
def dateSrc (t : Table) : List Cell :=
  match dateColsOf t with
  | c :: _ => t.getCol c
  | [] => t.firstCol

/-- Positional index of the date-source column. -/
def dateIdx (t : Table) : Nat :=
  match dateColsOf t with
  | c :: _ => (t.colIdx c).getD 0
  | [] => 0

/-- The parsed date series (the value of `pd.to_datetime(...)` on the
date-source series, when no element raises). -/
def parsedCol (p : Cell → DRes) (t : Table) : List Cell :=
  (dateSrc t).map (fun c => dresCell (toDatetime p c))

/-- Line 41: `df['Date'].dt.year` on one cell. -/
def yearCell : Cell → Cell
  | Cell.date d => Cell.num (Frac.ofNat d.year)
  | _ => Cell.na

/-- Line 42: `df['Date'].dt.month` on one cell. -/
def monthCell : Cell → Cell
  | Cell.date d => Cell.num (Frac.ofNat d.month)
  | _ => Cell.na

/-- Line 43: `df['Date'].dt.day` on one cell. -/
def dayCell : Cell → Cell
  | Cell.date d => Cell.num (Frac.ofNat d.day)
  | _ => Cell.na

/-- Full English month name, as produced by `strftime('%B')`. -/
def monthName : Nat → String
  | 1 => "January"
  | 2 => "February"
  | 3 => "March"
  | 4 => "April"
  | 5 => "May"
  | 6 => "June"
  | 7 => "July"
  | 8 => "August"
  | 9 => "September"
  | 10 => "October"
  | 11 => "November"
  | 12 => "December"
  | _ => ""

/-- Line 44: `df['Date'].dt.strftime('%B')` on one cell. -/
def monthNameCell : Cell → Cell
  | Cell.date d => Cell.str (monthName d.month)
  | _ => Cell.na

/-- Lines 45-50: the month-to-season dictionary; `Series.map` yields `NaN`
for keys that are not in the dictionary. -/
def seasonCell : Cell → Cell
  | Cell.num m =>
      if m = 12 ∨ m = 1 ∨ m = 2 then Cell.str "Winter"
      else if m = 3 ∨ m = 4 ∨ m = 5 then Cell.str "Spring"
      else if m = 6 ∨ m = 7 ∨ m = 8 then Cell.str "Summer"
      else if m = 9 ∨ m = 10 ∨ m = 11 then Cell.str "Fall"
      else Cell.na
  | _ => Cell.na

/-- Pandas series addition on cells: missing values propagate; adding two
strings concatenates; mixed-type additions that raise in pandas are modelled
as missing. -/
def Cell.add : Cell → Cell → Cell
  | Cell.num a, Cell.num b => Cell.num (a.add b)
  | Cell.str a, Cell.str b => Cell.str (a ++ b)
  | _, _ => Cell.na

/-- Pandas `series / 2` on one cell (missing propagates; non-numeric cells,
which would raise in pandas, are modelled as missing). -/
def Cell.half : Cell → Cell
  | Cell.num a => Cell.num a.half
  | _ => Cell.na

/-- Pandas scalar subtraction on cells (for `temp_change`). -/
def Cell.sub : Cell → Cell → Cell
  | Cell.num a, Cell.num b => Cell.num (a.sub b)
  | _, _ => Cell.na

/-- Line 35/38: `df['Date'] = pd.to_datetime(date source)` (the raise-free
part; the raising case is handled in `load_data`). -/
def addDate (p : Cell → DRes) (t : Table) : Table :=
  t.setColL "Date" (parsedCol p t)

/-- Line 41: `df['Year'] = df['Date'].dt.year`. -/
def addYear (t : Table) : Table :=
  t.setColL "Year" ((t.getCol "Date").map yearCell)

/-- Line 42: `df['Month'] = df['Date'].dt.month`. -/
def addMonth (t : Table) : Table :=
  t.setColL "Month" ((t.getCol "Date").map monthCell)

/-- Line 43: `df['Day'] = df['Date'].dt.day`. -/
def addDay (t : Table) : Table :=
  t.setColL "Day" ((t.getCol "Date").map dayCell)

/-- Line 44: `df['Month_Name'] = df['Date'].dt.strftime('%B')`. -/
def addMonthName (t : Table) : Table :=
  t.setColL "Month_Name" ((t.getCol "Date").map monthNameCell)

/-- Lines 45-50: `df['Season'] = df['Month'].map(...)`. -/
def addSeason (t : Table) : Table :=
  t.setColL "Season" ((t.getCol "Month").map seasonCell)

/-- Lines 33-50: the date / calendar enrichment part of `load_data`. -/
def stage6 (p : Cell → DRes) (t : Table) : Table :=
  addSeason (addMonthName (addDay (addMonth (addYear (addDate p t)))))

/-- Lines 60-68: the `Temp_Mean` selection policy, given `temp_cols`. -/
def addTempMean (t : Table) (tempCols : List String) : Table :=
  match tempCols.filter isMeanName with
  | m :: _ => t.setColL "Temp_Mean" (t.getCol m)
  | [] =>
    match tempCols with
    | a :: b :: _ =>
        t.setColL "Temp_Mean" ((List.zipWith Cell.add (t.getCol a) (t.getCol b)).map Cell.half)
    | [a] => t.setColL "Temp_Mean" (t.getCol a)
    | [] => t

/-- The recurring `if cols: df[name] = df[cols[0]]` pattern of lines 70-81:
copy the first column of `src` into the column `name`, when `src` is
non-empty. -/
def writeFirst (t : Table) (name : String) (src : List String) : Table :=
  match src with
  | m :: _ => t.setColL name (t.getCol m)
  | [] => t

/-- Lines 70-73: `Temp_Max` from the first `temp_cols` entry containing
`max` or `tx`, if any. -/
def addTempMax (t : Table) (tempCols : List String) : Table :=
  writeFirst t "Temp_Max" (tempCols.filter isMaxName)

/-- Lines 75-78: `Temp_Min` from the first `temp_cols` entry containing
`min` or `tn`, if any. -/
def addTempMin (t : Table) (tempCols : List String) : Table :=
  writeFirst t "Temp_Min" (tempCols.filter isMinName)

/-- Lines 59-78: the whole temperature block (`if temp_cols:`); `temp_cols`
is scanned from the current frame's columns. -/
def addTemp (t : Table) : Table :=
  if (t.header.filter isTempName).isEmpty then t
  else
    addTempMin
      (addTempMax (addTempMean t (t.header.filter isTempName))
        (t.header.filter isTempName))
      (t.header.filter isTempName)

/-- Lines 53-81: temperature and precipitation enrichment on top of the
calendar-enriched frame (`precip_cols` is computed on line 56, before the
temperature columns are added). -/
def stage8 (p : Cell → DRes) (t : Table) : Table :=
  let t6 := stage6 p t
  let precipCols := t6.header.filter isPrecipName
  writeFirst (addTemp t6) "Precipitation" precipCols

/-- Line 84: `df.dropna(subset=['Date'])`. -/
def Table.dropnaDate (t : Table) : Table :=
  match t.colIdx "Date" with
  | some i => { t with rows := t.rows.filter (fun r => r.getD i Cell.na != Cell.na) }
  | none => t

/-- Lines 27-94: `load_data`.  `none` models the `st.stop()` of the
`except` clause: the vectorised `pd.to_datetime` raises as soon as one
element of the date-source series fails to parse, and the raise aborts the
whole load.  The file-read of line 30 is outside the embedding; `load_data`
takes the raw table directly. -/
def load_data (p : Cell → DRes) (t : Table) : Option Table :=
  if (dateSrc t).any (fun c => toDatetime p c == DRes.err) then none
  else some (stage8 p t).dropnaDate

/-- Digit accumulation for the fields of an ISO date; `none` on a
non-digit character. -/
def digitsToNat : Nat → List Char → Option Nat
  | acc, [] => some acc
  | acc, c :: cs =>
      if '0' ≤ c ∧ c ≤ '9' then digitsToNat (acc * 10 + (c.toNat - 48)) cs
      else none

/-- A numeric ISO date field (non-empty, all digits). -/
def numField : List Char → Option Nat
  | [] => none
  | l => digitsToNat 0 l

/-- Split a character list at `-` separators. -/
def splitDash : List Char → List (List Char)
  | [] => [[]]
  | c :: cs =>
    if c = '-' then [] :: splitDash cs
    else
      match splitDash cs with
      | r :: rs => (c :: r) :: rs
      | [] => [[c]]

/-- A concrete model of `pd.to_datetime` on one value, restricted to
ISO-formatted `YYYY-MM-DD` strings; used to instantiate the parser parameter
in concrete scenarios.  Any other value raises; missing values never reach
the parser (`toDatetime` maps them to `NaT` first). -/
def isoParse (c : Cell) : DRes :=
  match c with
  | Cell.str s =>
    match splitDash s.toList with
    | [y, m, d] =>
      match numField y, numField m, numField d with
      | some yn, some mn, some dn =>
          if 1 ≤ mn ∧ mn ≤ 12 ∧ 1 ≤ dn ∧ dn ≤ 31 then DRes.ok ⟨yn, mn, dn⟩
          else DRes.err
      | _, _, _ => DRes.err
    | _ => DRes.err
  | _ => DRes.err

/-- The row-survival predicate of line 84: a row survives
`df.dropna(subset=['Date'])` exactly when its parsed date cell is not
missing (`NaT`). -/
def keepRow (p : Cell → DRes) (t : Table) (r : List Cell) : Bool :=
  dresCell (toDatetime p (r.getD (dateIdx t) Cell.na)) != Cell.na

/-- Lines 61-68 read per-row: the `Temp_Mean` value the selection policy
assigns to one raw row (`temp_cols` is the list of temperature-like columns
of the raw header, reads are by the raw table's column indices). -/
def tempMeanPolicy (t : Table) (r : List Cell) : Cell :=
  match (t.header.filter isTempName).filter isMeanName with
  | m :: _ => r.getD ((t.colIdx m).getD 0) Cell.na
  | [] =>
    match t.header.filter isTempName with
    | a :: b :: _ =>
        Cell.half (Cell.add (r.getD ((t.colIdx a).getD 0) Cell.na)
          (r.getD ((t.colIdx b).getD 0) Cell.na))
    | [a] => r.getD ((t.colIdx a).getD 0) Cell.na
    | [] => Cell.na

/-- `@st.cache_data` behaviour of `load_data` (lines 26-27, 97): on a cache
hit the cached frame is returned unchanged, without re-running the pipeline;
on a miss the pipeline runs and, on success, its result is stored
(`st.stop()` ends the script run, so nothing is cached on failure).
Returns the value served together with the new cache state. -/
def cachedLoad (p : Cell → DRes) (file : Table) (cache : Option Table) :
    Option Table × Option Table :=
  match cache with
  | some t => (some t, some t)
  | none =>
    match load_data p file with
    | some t => (some t, some t)
    | none => (none, none)

/-- One numeric cell's value, if any (for pandas reductions that skip
missing values). -/
def cellNum : Cell → Option Frac
  | Cell.num q => some q
  | _ => none

/-- `Series.mean()`: the mean of the non-missing numeric values, `NaN` when
there are none. -/
def cellsMean (cs : List Cell) : Cell :=
  let ns := cs.filterMap cellNum
  if ns.isEmpty then Cell.na else Cell.num ((fracSum ns).divNat ns.length)

/-- Insertion into a sorted list of rationals (for the sorted group keys of
`groupby`). -/
def insertSortedQ (x : Frac) : List Frac → List Frac
  | [] => [x]
  | y :: ys => if x ≤ y then x :: y :: ys else y :: insertSortedQ x ys

/-- Insertion sort on rationals. -/
def sortQ (l : List Frac) : List Frac :=
  l.foldr insertSortedQ []

/-- The sorted distinct numeric `Year` keys of `df.groupby('Year')`. -/
def yearsOf (df : Table) : List Frac :=
  sortQ ((df.getCol "Year").filterMap cellNum).dedup

/-- `df.groupby('Year')[col].mean()` at one year key. -/
def groupMeanByYear (df : Table) (col : String) (y : Frac) : Cell :=
  cellsMean (((df.getCol col).zip (df.getCol "Year")).filterMap
    (fun cy => if cy.2 = Cell.num y then some cy.1 else none))

/-- Line 160: `temp_change = yearly_temp['Temp_Mean'].iloc[-5:].mean() -
yearly_temp['Temp_Mean'].iloc[:5].mean()`. -/
def tempChange (df : Table) : Cell :=
  let means := (yearsOf df).map (groupMeanByYear df "Temp_Mean")
  Cell.sub (cellsMean (means.drop (means.length - 5))) (cellsMean (means.take 5))

/-- The renderable pieces of the "2. ANALYSIS" page, in source order. -/
inductive Sec where
  | headline
  | tempChart
  | tempNarrative (c : Cell)
  | precipChart
  | precipNarrative
  | distChart
  | distNarrative
  | heatmap
  | heatNarrative
  | precipBox
  | boxNarrative
deriving DecidableEq, Repr

/-- Lines 128-341: the "2. ANALYSIS" page.  Every chart block is guarded by
a column-presence test, but the narrative of lines 162-168 formats
`temp_change`, which is only assigned inside the `if 'Temp_Mean' in
df.columns:` block (line 160); when `Temp_Mean` is absent the page run
raises `NameError` (modelled by `Except.error`) instead of rendering. -/
def analysisPage (df : Table) : Except String (List Sec) :=
  if "Temp_Mean" ∈ df.header then
    Except.ok
      ([Sec.headline, Sec.tempChart, Sec.tempNarrative (tempChange df)]
        ++ (if "Precipitation" ∈ df.header then [Sec.precipChart] else [])
        ++ [Sec.precipNarrative]
        ++ [Sec.distChart, Sec.distNarrative, Sec.heatmap, Sec.heatNarrative]
        ++ (if "Precipitation" ∈ df.header then [Sec.precipBox] else [])
        ++ [Sec.boxNarrative])
  else Except.error "NameError: name temp_change is not defined"

/-- Names written by the calendar part of the pipeline (lines 35-50). -/
def sixNames : List String :=
  ["Date", "Year", "Month", "Day", "Month_Name", "Season"]

/-- Names written by the temperature block (lines 59-78). -/
def tempTrio : List String :=
  ["Temp_Mean", "Temp_Max", "Temp_Min"]

/-- All names the pipeline may write (lines 35-81). -/
def derivedNames : List String :=
  ["Date", "Year", "Month", "Day", "Month_Name", "Season",
   "Temp_Mean", "Temp_Max", "Temp_Min", "Precipitation"]

/-- `t'` is obtained from `t` by mapping a function over its rows (each
output row is a function of the corresponding input row alone). -/
def MapsRows (t t' : Table) : Prop :=
  ∃ E, t'.rows = t.rows.map E

/-- A one-row table with two min/max temperature columns and no
mean-named column. -/
def wtC1 : Table :=
  ⟨["DATE", "TN", "TX"], [[Cell.str "2020-01-01", Cell.num 1, Cell.num 2]]⟩

/-- A table whose first date-like column is `Time`, with a different
date value in the column named exactly `Date`. -/
def wtC2a : Table :=
  ⟨["Time", "Date"], [[Cell.str "2020-01-01", Cell.str "2021-05-06"]]⟩

/-- A table whose first (and only) date-like column is named exactly `Date`. -/
def wtC2b : Table :=
  ⟨["Date", "TX"], [[Cell.str "2020-01-01", Cell.num 3]]⟩

/-- A table with one parseable date row and one malformed date string. -/
def wtC3a : Table :=
  ⟨["Date"], [[Cell.str "2020-01-01"], [Cell.str "zzz"]]⟩

/-- A table with one parseable date row and one missing date. -/
def wtC3b : Table :=
  ⟨["Date"], [[Cell.str "2020-01-01"], [Cell.na]]⟩

/-- A table with one parseable-date row and one missing-date row whose
temperature value is present. -/
def wtC4 : Table :=
  ⟨["Date", "TX"], [[Cell.str "2020-01-01", Cell.num 7], [Cell.na, Cell.num 8]]⟩

/-- The input of the specification's scenario. -/
def wtC5 : Table :=
  ⟨["DATE", "TX", "TN", "RR"],
   [[Cell.str "2020-01-01", Cell.num 10, Cell.num 0, Cell.num 5]]⟩

/-- A table with no precipitation-like column and a malformed date string. -/
def wtC6a : Table :=
  ⟨["Date"], [[Cell.str "zzz"]]⟩

/-- A table with no precipitation-like column whose load succeeds. -/
def wtC6b : Table :=
  ⟨["Date", "TX"], [[Cell.str "2020-01-01", Cell.num 3]]⟩

/-- A table whose precipitation column holds a negative value. -/
def wtC8a : Table :=
  ⟨["Date", "RR"], [[Cell.str "2020-01-01", Cell.num (-1)]]⟩

/-- A table without any temperature-like column (so no `Temp_Mean`). -/
def wtC9 : Table :=
  ⟨["Date"], []⟩

/-- A table with an untouched passenger column (`Station`). -/
def wtC10 : Table :=
  ⟨["Date", "Station", "TX"],
   [[Cell.str "2020-01-01", Cell.str "INRAE", Cell.num 3]]⟩

/-! ## Auxiliary list lemmas -/

theorem getD_set_self {α : Type} (l : List α) (i : Nat) (v d : α)
    (h : i < l.length) : (l.set i v).getD i d = v := by
  induction l generalizing i with
  | nil => simp at h
  | cons a as ih =>
    cases i with
    | zero => rfl
    | succ j => exact ih j (by simp [List.length_cons] at h; omega)

theorem getD_set_ne {α : Type} (l : List α) (i j : Nat) (v d : α)
    (h : i ≠ j) : (l.set i v).getD j d = l.getD j d := by
  induction l generalizing i j with
  | nil => rfl
  | cons a as ih =>
    cases i with
    | zero =>
      cases j with
      | zero => exact absurd rfl h
      | succ k => rfl
    | succ i2 =>
      cases j with
      | zero => rfl
      | succ k => exact ih i2 k (fun hh => h (by rw [hh]))

theorem getD_append_lt {α : Type} (l l2 : List α) (j : Nat) (d : α)
    (h : j < l.length) : (l ++ l2).getD j d = l.getD j d := by
  induction l generalizing j with
  | nil => simp at h
  | cons a as ih =>
    cases j with
    | zero => rfl
    | succ k => exact ih k (by simp [List.length_cons] at h; omega)

theorem getD_append_len {α : Type} (l : List α) (v d : α) :
    (l ++ [v]).getD l.length d = v := by
  induction l with
  | nil => rfl
  | cons a as ih => exact ih

theorem map_zipWith_eq {α β γ δ : Type} (f : β → γ) (h : α → δ → β) (g : α → γ)
    (l : List α) (l2 : List δ) (hlen : l2.length = l.length)
    (hp : ∀ a ∈ l, ∀ b ∈ l2, f (h a b) = g a) :
    (List.zipWith h l l2).map f = l.map g := by
  induction l generalizing l2 with
  | nil =>
    cases l2 with
    | nil => rfl
    | cons b bs => simp at hlen
  | cons a as ih =>
    cases l2 with
    | nil => simp at hlen
    | cons b bs =>
      simp only [List.zipWith_cons_cons, List.map]
      congr 1
      · exact hp a (List.mem_cons_self a as) b (List.mem_cons_self b bs)
      · exact ih bs (by simp [List.length_cons] at hlen; omega)
          (fun x hx y hy => hp x (List.mem_cons_of_mem _ hx) y (List.mem_cons_of_mem _ hy))

theorem map_zipWith_eq_right {α β δ : Type} (f : β → δ) (h : α → δ → β)
    (l : List α) (l2 : List δ) (hlen : l2.length = l.length)
    (hp : ∀ a ∈ l, ∀ b ∈ l2, f (h a b) = b) :
    (List.zipWith h l l2).map f = l2 := by
  induction l generalizing l2 with
  | nil =>
    cases l2 with
    | nil => rfl
    | cons b bs => simp at hlen
  | cons a as ih =>
    cases l2 with
    | nil => simp at hlen
    | cons b bs =>
      simp only [List.zipWith_cons_cons, List.map]
      congr 1
      · exact hp a (List.mem_cons_self a as) b (List.mem_cons_self b bs)
      · exact ih bs (by simp [List.length_cons] at hlen; omega)
          (fun x hx y hy => hp x (List.mem_cons_of_mem _ hx) y (List.mem_cons_of_mem _ hy))

theorem zipWith_map_self {α β γ : Type} (h : α → β → γ) (g : α → β) (l : List α) :
    List.zipWith h l (l.map g) = l.map (fun a => h a (g a)) := by
  induction l with
  | nil => rfl
  | cons a as ih => simp only [List.map, List.zipWith_cons_cons, ih]

theorem zipWith_map_map {α β γ δ : Type} (f : β → γ → δ) (g1 : α → β) (g2 : α → γ)
    (l : List α) :
    List.zipWith f (l.map g1) (l.map g2) = l.map (fun a => f (g1 a) (g2 a)) := by
  induction l with
  | nil => rfl
  | cons a as ih => simp only [List.map, List.zipWith_cons_cons, ih]

theorem mem_zipWith {α β γ : Type} (h : α → β → γ) :
    ∀ (l : List α) (l2 : List β), ∀ c ∈ List.zipWith h l l2,
      ∃ a ∈ l, ∃ b ∈ l2, c = h a b
  | [], _, c, hc => by cases hc
  | _ :: _, [], c, hc => by cases hc
  | a :: as, b :: bs, c, hc => by
    rcases List.mem_cons.mp hc with h1 | h2
    · exact ⟨a, List.mem_cons_self a as, b, List.mem_cons_self b bs, h1⟩
    · obtain ⟨x, hx, y, hy, hxy⟩ := mem_zipWith h as bs c h2
      exact ⟨x, List.mem_cons_of_mem _ hx, y, List.mem_cons_of_mem _ hy, hxy⟩

theorem filter_of_map {α β : Type} (f : α → β) (p : β → Bool) (l : List α) :
    (l.map f).filter p = (l.filter (fun a => p (f a))).map f := by
  induction l with
  | nil => rfl
  | cons a as ih =>
    simp only [List.map, List.filter]
    cases hpa : p (f a) <;> simp [hpa, ih]

theorem filter_congr_mem {α : Type} (p q : α → Bool) (l : List α)
    (h : ∀ a ∈ l, p a = q a) : l.filter p = l.filter q := by
  induction l with
  | nil => rfl
  | cons a as ih =>
    have ha := h a (List.mem_cons_self a as)
    have ht := ih (fun x hx => h x (List.mem_cons_of_mem _ hx))
    simp only [List.filter, ha, ht]

theorem map_congr_mem {α β : Type} (f g : α → β) (l : List α)
    (h : ∀ a ∈ l, f a = g a) : l.map f = l.map g := by
  induction l with
  | nil => rfl
  | cons a as ih =>
    simp only [List.map]
    rw [h a (List.mem_cons_self a as), ih (fun x hx => h x (List.mem_cons_of_mem _ hx))]

theorem eq_of_map_eq {α β : Type} (f g : α → β) (l : List α)
    (h : l.map f = l.map g) : ∀ a ∈ l, f a = g a := by
  induction l with
  | nil => intro a ha; cases ha
  | cons a as ih =>
    simp only [List.map, List.cons.injEq] at h
    intro x hx
    rcases List.mem_cons.mp hx with h1 | h2
    · rw [h1]; exact h.1
    · exact ih h.2 x h2

theorem filter_eq_nil_of_none {α : Type} (p : α → Bool) (l : List α)
    (h : ∀ a ∈ l, p a = false) : l.filter p = [] := by
  induction l with
  | nil => rfl
  | cons a as ih =>
    simp only [List.filter, h a (List.mem_cons_self a as)]
    exact ih (fun x hx => h x (List.mem_cons_of_mem _ hx))

/-! ## Lemmas about `idxOfCol` -/

theorem idxOfCol_lt (n : String) :
    ∀ (l : List String) (i : Nat), idxOfCol n l = some i → i < l.length
  | [], i, h => by cases h
  | c :: cs, i, h => by
    simp only [idxOfCol] at h
    split at h
    · cases h; simp
    · cases hrec : idxOfCol n cs with
      | none => rw [hrec] at h; cases h
      | some j =>
        rw [hrec] at h
        simp only [Option.map] at h
        cases h
        have := idxOfCol_lt n cs j hrec
        simp only [List.length_cons]
        omega

theorem idxOfCol_getD (n : String) :
    ∀ (l : List String) (i : Nat), idxOfCol n l = some i → l.getD i "" = n
  | [], i, h => by cases h
  | c :: cs, i, h => by
    simp only [idxOfCol] at h
    split at h
    · cases h
      next hc => exact hc
    · cases hrec : idxOfCol n cs with
      | none => rw [hrec] at h; cases h
      | some j =>
        rw [hrec] at h
        simp only [Option.map] at h
        cases h
        exact idxOfCol_getD n cs j hrec

theorem idxOfCol_of_mem (n : String) :
    ∀ (l : List String), n ∈ l → ∃ i, idxOfCol n l = some i
  | [], h => absurd h (List.not_mem_nil n)
  | c :: cs, h => by
    by_cases hc : c = n
    · exact ⟨0, by simp [idxOfCol, hc]⟩
    · have hm : n ∈ cs := by
        rcases List.mem_cons.mp h with h1 | h2
        · exact absurd h1.symm hc
        · exact h2
      obtain ⟨j, hj⟩ := idxOfCol_of_mem n cs hm
      exact ⟨j + 1, by simp [idxOfCol, hc, hj]⟩

theorem idxOfCol_none_iff (n : String) :
    ∀ (l : List String), idxOfCol n l = none ↔ n ∉ l := by
  intro l
  induction l with
  | nil => simp [idxOfCol]
  | cons c cs ih =>
    by_cases hc : c = n
    · simp [idxOfCol, hc]
    · simp only [idxOfCol, if_neg hc, Option.map_eq_none', List.mem_cons, ih]
      constructor
      · intro h hmem
        rcases hmem with h1 | h2
        · exact hc h1.symm
        · exact h h2
      · intro h h2
        exact h (Or.inr h2)

theorem idxOfCol_append_left (n : String) :
    ∀ (l l2 : List String) (i : Nat),
      idxOfCol n l = some i → idxOfCol n (l ++ l2) = some i
  | [], _, i, h => by cases h
  | c :: cs, l2, i, h => by
    simp only [idxOfCol] at h ⊢
    split at h
    · cases h
      simp_all
    · next hc =>
      rw [if_neg hc]
      cases hrec : idxOfCol n cs with
      | none => rw [hrec] at h; cases h
      | some j =>
        rw [hrec] at h
        simp only [Option.map] at h
        cases h
        simp only [List.append_eq]
        rw [idxOfCol_append_left n cs l2 j hrec]
        rfl

theorem idxOfCol_append_self (n : String) :
    ∀ (l : List String), idxOfCol n l = none → idxOfCol n (l ++ [n]) = some l.length
  | [], _ => by simp [idxOfCol]
  | c :: cs, h => by
    simp only [idxOfCol] at h ⊢
    split at h
    · cases h
    · next hc =>
      rw [if_neg hc]
      rw [Option.map_eq_none'] at h
      simp only [List.append_eq]
      rw [idxOfCol_append_self n cs h]
      rfl

/-! ## Lemmas about `Table.setColL`, `Table.getCol` and friends -/

theorem mem_of_colIdx_some (t : Table) (n : String) (i : Nat)
    (h : t.colIdx n = some i) : n ∈ t.header := by
  by_contra hn
  have hnone := (idxOfCol_none_iff n t.header).mpr hn
  simp [Table.colIdx, hnone] at h

theorem header_setColL_of_isSome (t : Table) (n : String) (vals : List Cell)
    (h : (t.colIdx n).isSome) : (t.setColL n vals).header = t.header := by
  simp [Table.setColL, h]

theorem header_setColL_of_none (t : Table) (n : String) (vals : List Cell)
    (h : t.colIdx n = none) : (t.setColL n vals).header = t.header ++ [n] := by
  simp [Table.setColL, h]

theorem header_setColL_cases (t : Table) (n : String) (vals : List Cell) :
    (t.setColL n vals).header = t.header ∨
      (t.setColL n vals).header = t.header ++ [n] := by
  cases h : t.colIdx n with
  | some i => exact Or.inl (header_setColL_of_isSome t n vals (by simp [h]))
  | none => exact Or.inr (header_setColL_of_none t n vals h)

theorem length_rows_setColL (t : Table) (n : String) (vals : List Cell)
    (hlen : vals.length = t.rows.length) :
    (t.setColL n vals).rows.length = t.rows.length := by
  simp [Table.setColL, List.length_zipWith, hlen]

theorem WF_setColL (t : Table) (n : String) (vals : List Cell)
    (hwf : t.WF) (_hlen : vals.length = t.rows.length) :
    (t.setColL n vals).WF := by
  intro r hr
  obtain ⟨a, ha, b, _, rfl⟩ :=
    mem_zipWith (fun r v => rowWrite (t.colIdx n) v r) t.rows vals r hr
  cases hidx : t.colIdx n with
  | some i =>
    have hh := header_setColL_of_isSome t n vals (by simp [hidx])
    simp only [hidx, rowWrite, hh, List.length_set]
    exact hwf a ha
  | none =>
    have hh := header_setColL_of_none t n vals hidx
    simp only [hidx, rowWrite, hh, List.length_append, List.length_cons,
      List.length_nil]
    rw [hwf a ha]

theorem colIdx_setColL_of_mem (t : Table) (n : String) (vals : List Cell)
    (m : String) (hm : m ∈ t.header) :
    (t.setColL n vals).colIdx m = t.colIdx m := by
  obtain ⟨i, hi⟩ := idxOfCol_of_mem m t.header hm
  rcases header_setColL_cases t n vals with hh | hh <;>
    simp only [Table.colIdx, hh]
  rw [idxOfCol_append_left m t.header [n] i hi]
  exact hi.symm

theorem header_subset_setColL (t : Table) (n : String) (vals : List Cell) :
    t.header ⊆ (t.setColL n vals).header := by
  rcases header_setColL_cases t n vals with hh | hh <;> rw [hh]
  · exact fun x hx => hx
  · exact fun x hx => List.mem_append_left _ hx

theorem header_ext_setColL (t : Table) (n : String) (vals : List Cell) :
    ∃ L, (t.setColL n vals).header = t.header ++ L ∧ ∀ x ∈ L, x = n := by
  rcases header_setColL_cases t n vals with hh | hh
  · exact ⟨[], by simp [hh], by simp⟩
  · exact ⟨[n], hh, by simp⟩

theorem mem_setColL_self (t : Table) (n : String) (vals : List Cell) :
    n ∈ (t.setColL n vals).header := by
  cases hidx : t.colIdx n with
  | some i =>
    rw [header_setColL_of_isSome t n vals (by simp [hidx])]
    exact mem_of_colIdx_some t n i hidx
  | none =>
    rw [header_setColL_of_none t n vals hidx]
    exact List.mem_append_right _ (List.mem_singleton_self n)

theorem getCol_setColL_self (t : Table) (n : String) (vals : List Cell)
    (hwf : t.WF) (hlen : vals.length = t.rows.length) :
    (t.setColL n vals).getCol n = vals := by
  cases hidx : t.colIdx n with
  | some i =>
    have hh := header_setColL_of_isSome t n vals (by simp [hidx])
    have hci : (t.setColL n vals).colIdx n = some i := by
      simp only [Table.colIdx, hh]
      exact hidx
    simp only [Table.getCol, hci]
    show (List.zipWith (fun r v => rowWrite (t.colIdx n) v r) t.rows vals).map
        (fun r => r.getD i Cell.na) = vals
    apply map_zipWith_eq_right _ _ _ _ hlen
    intro a ha b _
    simp only [hidx, rowWrite]
    apply getD_set_self
    rw [hwf a ha]
    exact idxOfCol_lt n t.header i hidx
  | none =>
    have hh := header_setColL_of_none t n vals hidx
    have hci : (t.setColL n vals).colIdx n = some t.header.length := by
      simp only [Table.colIdx, hh]
      exact idxOfCol_append_self n t.header hidx
    simp only [Table.getCol, hci]
    show (List.zipWith (fun r v => rowWrite (t.colIdx n) v r) t.rows vals).map
        (fun r => r.getD t.header.length Cell.na) = vals
    apply map_zipWith_eq_right _ _ _ _ hlen
    intro a ha b _
    simp only [hidx, rowWrite]
    rw [← hwf a ha]
    exact getD_append_len a b Cell.na

theorem getCol_setColL_ne (t : Table) (n : String) (vals : List Cell)
    (m : String) (hwf : t.WF) (hlen : vals.length = t.rows.length)
    (hm : m ∈ t.header) (hne : m ≠ n) :
    (t.setColL n vals).getCol m = t.getCol m := by
  obtain ⟨j, hj⟩ := idxOfCol_of_mem m t.header hm
  have hcj : idxOfCol m (t.setColL n vals).header = some j := by
    have := colIdx_setColL_of_mem t n vals m hm
    simp only [Table.colIdx] at this
    rw [this]
    exact hj
  have hjlt : j < t.header.length := idxOfCol_lt m t.header j hj
  simp only [Table.getCol, Table.colIdx, hcj, hj]
  show (List.zipWith (fun r v => rowWrite (t.colIdx n) v r) t.rows vals).map
      (fun r => r.getD j Cell.na) = t.rows.map (fun r => r.getD j Cell.na)
  apply map_zipWith_eq _ _ _ _ _ hlen
  intro a ha b _
  cases hidx : t.colIdx n with
  | some i =>
    simp only [rowWrite]
    apply getD_set_ne
    intro hij
    apply hne
    have h1 := idxOfCol_getD n t.header i hidx
    have h2 := idxOfCol_getD m t.header j hj
    rw [← h1, ← h2, hij]
  | none =>
    simp only [rowWrite]
    apply getD_append_lt
    rw [hwf a ha]
    exact hjlt

theorem getCol_length_of_mem (t : Table) (m : String) (hm : m ∈ t.header) :
    (t.getCol m).length = t.rows.length := by
  obtain ⟨i, hi⟩ := idxOfCol_of_mem m t.header hm
  simp [Table.getCol, Table.colIdx, hi]

theorem getCol_eq_map_of_some (t : Table) (m : String) (i : Nat)
    (hi : t.colIdx m = some i) :
    t.getCol m = t.rows.map (fun r => r.getD i Cell.na) := by
  simp [Table.getCol, hi]

theorem dateSrc_eq_map (t : Table) :
    dateSrc t = t.rows.map (fun r => r.getD (dateIdx t) Cell.na) := by
  unfold dateSrc dateIdx
  cases hdc : dateColsOf t with
  | nil => rfl
  | cons c cs =>
    have hc : c ∈ t.header := by
      have : c ∈ dateColsOf t := by
        rw [hdc]
        exact List.mem_cons_self c cs
      exact List.mem_of_mem_filter this
    obtain ⟨i, hi⟩ := idxOfCol_of_mem c t.header hc
    simp [Table.getCol, Table.colIdx, hi]

theorem parsedCol_eq_map (p : Cell → DRes) (t : Table) :
    parsedCol p t =
      t.rows.map (fun r => dresCell (toDatetime p (r.getD (dateIdx t) Cell.na))) := by
  unfold parsedCol
  rw [dateSrc_eq_map, List.map_map]
  rfl

theorem parsedCol_length (p : Cell → DRes) (t : Table) :
    (parsedCol p t).length = t.rows.length := by
  rw [parsedCol_eq_map, List.length_map]

theorem rows_setColL_map (t : Table) (n : String) (g : List Cell → Cell) :
    (t.setColL n (t.rows.map g)).rows =
      t.rows.map (fun r => rowWrite (t.colIdx n) (g r) r) := by
  show List.zipWith (fun r v => rowWrite (t.colIdx n) v r) t.rows (t.rows.map g) = _
  exact zipWith_map_self _ g t.rows

theorem mapsRows_refl (t : Table) : MapsRows t t :=
  ⟨id, (List.map_id t.rows).symm⟩

theorem mapsRows_trans (t t' t'' : Table)
    (h1 : MapsRows t t') (h2 : MapsRows t' t'') : MapsRows t t'' := by
  obtain ⟨E1, he1⟩ := h1
  obtain ⟨E2, he2⟩ := h2
  exact ⟨E2 ∘ E1, by rw [he2, he1, List.map_map]⟩

theorem getCol_is_map (t : Table) (m : String) (hm : m ∈ t.header) :
    ∃ g, t.getCol m = t.rows.map g := by
  obtain ⟨i, hi⟩ := idxOfCol_of_mem m t.header hm
  exact ⟨_, getCol_eq_map_of_some t m i hi⟩

theorem mapsRows_setColL (t : Table) (n : String) (vals : List Cell)
    (hg : ∃ g, vals = t.rows.map g) : MapsRows t (t.setColL n vals) := by
  obtain ⟨g, rfl⟩ := hg
  exact ⟨_, rows_setColL_map t n g⟩

/-! ## The derived column names -/

theorem sixNames_not_temp : ∀ x ∈ sixNames, isTempName x = false := by decide

theorem sixNames_not_precip : ∀ x ∈ sixNames, isPrecipName x = false := by decide

theorem filter_header_ext (t t' : Table) (q : String → Bool) (L : List String)
    (hh : t'.header = t.header ++ L) (hq : ∀ x ∈ L, q x = false) :
    t'.header.filter q = t.header.filter q := by
  rw [hh, List.filter_append, filter_eq_nil_of_none q L hq, List.append_nil]

theorem header_ext_trans (a b c : List String) (q : String → Prop)
    (h1 : ∃ L, b = a ++ L ∧ ∀ x ∈ L, q x)
    (h2 : ∃ L, c = b ++ L ∧ ∀ x ∈ L, q x) :
    ∃ L, c = a ++ L ∧ ∀ x ∈ L, q x := by
  obtain ⟨L1, hb, hq1⟩ := h1
  obtain ⟨L2, hc, hq2⟩ := h2
  refine ⟨L1 ++ L2, ?_, ?_⟩
  · rw [hc, hb, List.append_assoc]
  · intro x hx
    rcases List.mem_append.mp hx with h | h
    · exact hq1 x h
    · exact hq2 x h

theorem header_ext_setColL_in (t : Table) (n : String) (vals : List Cell)
    (q : String → Prop) (hn : q n) :
    ∃ L, (t.setColL n vals).header = t.header ++ L ∧ ∀ x ∈ L, q x := by
  obtain ⟨L, hL, hx⟩ := header_ext_setColL t n vals
  refine ⟨L, hL, fun x hxx => ?_⟩
  rw [hx x hxx]
  exact hn

/-! ## Facts about the calendar stage (lines 33-50) -/

theorem stage6_facts (p : Cell → DRes) (t : Table) (hwf : t.WF) :
    (stage6 p t).WF ∧
    (stage6 p t).rows.length = t.rows.length ∧
    (∃ L, (stage6 p t).header = t.header ++ L ∧ ∀ x ∈ L, x ∈ sixNames) ∧
    (stage6 p t).getCol "Date" = parsedCol p t ∧
    MapsRows t (stage6 p t) ∧
    "Date" ∈ (stage6 p t).header ∧
    (∀ c ∈ t.header, c ∉ sixNames →
      (stage6 p t).getCol c = t.getCol c ∧ (stage6 p t).colIdx c = t.colIdx c) := by
  set t1 := addDate p t with ht1
  set t2 := addYear t1 with ht2
  set t3 := addMonth t2 with ht3
  set t4 := addDay t3 with ht4
  set t5 := addMonthName t4 with ht5
  have hs : stage6 p t = addSeason t5 := rfl
  -- step 1 : Date
  have hlen1 : (parsedCol p t).length = t.rows.length := parsedCol_length p t
  have hwf1 : t1.WF := WF_setColL _ _ _ hwf hlen1
  have hrl1 : t1.rows.length = t.rows.length := length_rows_setColL _ _ _ hlen1
  have hsub1 : t.header ⊆ t1.header := header_subset_setColL _ _ _
  have hext1 : ∃ L, t1.header = t.header ++ L ∧ ∀ x ∈ L, x ∈ sixNames :=
    header_ext_setColL_in _ _ _ _ (by decide)
  have hdate1 : t1.getCol "Date" = parsedCol p t := getCol_setColL_self _ _ _ hwf hlen1
  have hmemD1 : "Date" ∈ t1.header := mem_setColL_self _ _ _
  have hmaps1 : MapsRows t t1 := mapsRows_setColL _ _ _ ⟨_, parsedCol_eq_map p t⟩
  -- step 2 : Year
  have hlen2 : ((t1.getCol "Date").map yearCell).length = t1.rows.length := by
    rw [List.length_map, getCol_length_of_mem t1 "Date" hmemD1]
  have hwf2 : t2.WF := WF_setColL _ _ _ hwf1 hlen2
  have hrl2 : t2.rows.length = t1.rows.length := length_rows_setColL _ _ _ hlen2
  have hsub2 : t1.header ⊆ t2.header := header_subset_setColL _ _ _
  have hext2 : ∃ L, t2.header = t1.header ++ L ∧ ∀ x ∈ L, x ∈ sixNames :=
    header_ext_setColL_in _ _ _ _ (by decide)
  have hmemD2 : "Date" ∈ t2.header := hsub2 hmemD1
  have hdate2 : t2.getCol "Date" = t1.getCol "Date" :=
    getCol_setColL_ne _ _ _ _ hwf1 hlen2 hmemD1 (by decide)
  have hmaps2 : MapsRows t1 t2 := by
    apply mapsRows_setColL
    obtain ⟨g, hg⟩ := getCol_is_map t1 "Date" hmemD1
    exact ⟨_, by rw [hg, List.map_map]⟩
  -- step 3 : Month
  have hlen3 : ((t2.getCol "Date").map monthCell).length = t2.rows.length := by
    rw [List.length_map, getCol_length_of_mem t2 "Date" hmemD2]
  have hwf3 : t3.WF := WF_setColL _ _ _ hwf2 hlen3
  have hrl3 : t3.rows.length = t2.rows.length := length_rows_setColL _ _ _ hlen3
  have hsub3 : t2.header ⊆ t3.header := header_subset_setColL _ _ _
  have hext3 : ∃ L, t3.header = t2.header ++ L ∧ ∀ x ∈ L, x ∈ sixNames :=
    header_ext_setColL_in _ _ _ _ (by decide)
  have hmemD3 : "Date" ∈ t3.header := hsub3 hmemD2
  have hmemM3 : "Month" ∈ t3.header := mem_setColL_self _ _ _
  have hdate3 : t3.getCol "Date" = t2.getCol "Date" :=
    getCol_setColL_ne _ _ _ _ hwf2 hlen3 hmemD2 (by decide)
  have hmaps3 : MapsRows t2 t3 := by
    apply mapsRows_setColL
    obtain ⟨g, hg⟩ := getCol_is_map t2 "Date" hmemD2
    exact ⟨_, by rw [hg, List.map_map]⟩
  -- step 4 : Day
  have hlen4 : ((t3.getCol "Date").map dayCell).length = t3.rows.length := by
    rw [List.length_map, getCol_length_of_mem t3 "Date" hmemD3]
  have hwf4 : t4.WF := WF_setColL _ _ _ hwf3 hlen4
  have hrl4 : t4.rows.length = t3.rows.length := length_rows_setColL _ _ _ hlen4
  have hsub4 : t3.header ⊆ t4.header := header_subset_setColL _ _ _
  have hext4 : ∃ L, t4.header = t3.header ++ L ∧ ∀ x ∈ L, x ∈ sixNames :=
    header_ext_setColL_in _ _ _ _ (by decide)
  have hmemD4 : "Date" ∈ t4.header := hsub4 hmemD3
  have hmemM4 : "Month" ∈ t4.header := hsub4 hmemM3
  have hdate4 : t4.getCol "Date" = t3.getCol "Date" :=
    getCol_setColL_ne _ _ _ _ hwf3 hlen4 hmemD3 (by decide)
  have hmaps4 : MapsRows t3 t4 := by
    apply mapsRows_setColL
    obtain ⟨g, hg⟩ := getCol_is_map t3 "Date" hmemD3
    exact ⟨_, by rw [hg, List.map_map]⟩
  -- step 5 : Month_Name
  have hlen5 : ((t4.getCol "Date").map monthNameCell).length = t4.rows.length := by
    rw [List.length_map, getCol_length_of_mem t4 "Date" hmemD4]
  have hwf5 : t5.WF := WF_setColL _ _ _ hwf4 hlen5
  have hrl5 : t5.rows.length = t4.rows.length := length_rows_setColL _ _ _ hlen5
  have hsub5 : t4.header ⊆ t5.header := header_subset_setColL _ _ _
  have hext5 : ∃ L, t5.header = t4.header ++ L ∧ ∀ x ∈ L, x ∈ sixNames :=
    header_ext_setColL_in _ _ _ _ (by decide)
  have hmemD5 : "Date" ∈ t5.header := hsub5 hmemD4
  have hmemM5 : "Month" ∈ t5.header := hsub5 hmemM4
  have hdate5 : t5.getCol "Date" = t4.getCol "Date" :=
    getCol_setColL_ne _ _ _ _ hwf4 hlen5 hmemD4 (by decide)
  have hmaps5 : MapsRows t4 t5 := by
    apply mapsRows_setColL
    obtain ⟨g, hg⟩ := getCol_is_map t4 "Date" hmemD4
    exact ⟨_, by rw [hg, List.map_map]⟩
  -- step 6 : Season
  have hlen6 : ((t5.getCol "Month").map seasonCell).length = t5.rows.length := by
    rw [List.length_map, getCol_length_of_mem t5 "Month" hmemM5]
  have hwf6 : (addSeason t5).WF := WF_setColL _ _ _ hwf5 hlen6
  have hrl6 : (addSeason t5).rows.length = t5.rows.length := length_rows_setColL _ _ _ hlen6
  have hsub6 : t5.header ⊆ (addSeason t5).header := header_subset_setColL _ _ _
  have hext6 : ∃ L, (addSeason t5).header = t5.header ++ L ∧ ∀ x ∈ L, x ∈ sixNames :=
    header_ext_setColL_in _ _ _ _ (by decide)
  have hmemD6 : "Date" ∈ (addSeason t5).header := hsub6 hmemD5
  have hdate6 : (addSeason t5).getCol "Date" = t5.getCol "Date" :=
    getCol_setColL_ne _ _ _ _ hwf5 hlen6 hmemD5 (by decide)
  have hmaps6 : MapsRows t5 (addSeason t5) := by
    apply mapsRows_setColL
    obtain ⟨g, hg⟩ := getCol_is_map t5 "Month" hmemM5
    exact ⟨_, by rw [hg, List.map_map]⟩
  rw [hs]
  refine ⟨hwf6, ?_, ?_, ?_, ?_, hmemD6, ?_⟩
  · rw [hrl6, hrl5, hrl4, hrl3, hrl2, hrl1]
  · exact header_ext_trans _ _ _ _
      (header_ext_trans _ _ _ _
        (header_ext_trans _ _ _ _
          (header_ext_trans _ _ _ _
            (header_ext_trans _ _ _ _ hext1 hext2) hext3) hext4) hext5) hext6
  · rw [hdate6, hdate5, hdate4, hdate3, hdate2, hdate1]
  · exact mapsRows_trans _ _ _
      (mapsRows_trans _ _ _
        (mapsRows_trans _ _ _
          (mapsRows_trans _ _ _
            (mapsRows_trans _ _ _ hmaps1 hmaps2) hmaps3) hmaps4) hmaps5) hmaps6
  · intro c hc hc6
    have hne1 : c ≠ "Date" := by
      intro he
      exact hc6 (by rw [he]; decide)
    have hne2 : c ≠ "Year" := by
      intro he
      exact hc6 (by rw [he]; decide)
    have hne3 : c ≠ "Month" := by
      intro he
      exact hc6 (by rw [he]; decide)
    have hne4 : c ≠ "Day" := by
      intro he
      exact hc6 (by rw [he]; decide)
    have hne5 : c ≠ "Month_Name" := by
      intro he
      exact hc6 (by rw [he]; decide)
    have hne6 : c ≠ "Season" := by
      intro he
      exact hc6 (by rw [he]; decide)
    have hc1 : c ∈ t1.header := hsub1 hc
    have hc2 : c ∈ t2.header := hsub2 hc1
    have hc3 : c ∈ t3.header := hsub3 hc2
    have hc4 : c ∈ t4.header := hsub4 hc3
    have hc5 : c ∈ t5.header := hsub5 hc4
    have g6 : (addSeason t5).getCol c = t5.getCol c :=
      getCol_setColL_ne _ _ _ _ hwf5 hlen6 hc5 hne6
    have g5 : t5.getCol c = t4.getCol c :=
      getCol_setColL_ne _ _ _ _ hwf4 hlen5 hc4 hne5
    have g4 : t4.getCol c = t3.getCol c :=
      getCol_setColL_ne _ _ _ _ hwf3 hlen4 hc3 hne4
    have g3 : t3.getCol c = t2.getCol c :=
      getCol_setColL_ne _ _ _ _ hwf2 hlen3 hc2 hne3
    have g2 : t2.getCol c = t1.getCol c :=
      getCol_setColL_ne _ _ _ _ hwf1 hlen2 hc1 hne2
    have g1 : t1.getCol c = t.getCol c :=
      getCol_setColL_ne _ _ _ _ hwf hlen1 hc hne1
    have i6 : (addSeason t5).colIdx c = t5.colIdx c :=
      colIdx_setColL_of_mem _ _ _ _ hc5
    have i5 : t5.colIdx c = t4.colIdx c := colIdx_setColL_of_mem _ _ _ _ hc4
    have i4 : t4.colIdx c = t3.colIdx c := colIdx_setColL_of_mem _ _ _ _ hc3
    have i3 : t3.colIdx c = t2.colIdx c := colIdx_setColL_of_mem _ _ _ _ hc2
    have i2 : t2.colIdx c = t1.colIdx c := colIdx_setColL_of_mem _ _ _ _ hc1
    have i1 : t1.colIdx c = t.colIdx c := colIdx_setColL_of_mem _ _ _ _ hc
    exact ⟨by rw [g6, g5, g4, g3, g2, g1], by rw [i6, i5, i4, i3, i2, i1]⟩

/-! ## Facts about the temperature and precipitation writes (lines 53-81) -/

theorem of_filter_eq_nil {α : Type} (p : α → Bool) (l : List α)
    (h : l.filter p = []) : ∀ a ∈ l, p a = false := by
  induction l with
  | nil => intro a ha; cases ha
  | cons a as ih =>
    intro x hx
    by_cases hpa : p a
    · rw [List.filter_cons_of_pos hpa] at h
      cases h
    · rcases List.mem_cons.mp hx with h1 | h2
      · rw [h1]
        exact Bool.of_not_eq_true hpa
      · rw [List.filter_cons_of_neg hpa] at h
        exact ih h x h2

theorem writeFirst_nil (t : Table) (name : String) :
    writeFirst t name [] = t := rfl

theorem header_ext_mono (a b : List String) (q1 q2 : String → Prop)
    (h : ∃ L, b = a ++ L ∧ ∀ x ∈ L, q1 x) (himp : ∀ x, q1 x → q2 x) :
    ∃ L, b = a ++ L ∧ ∀ x ∈ L, q2 x := by
  obtain ⟨L, hL, hx⟩ := h
  exact ⟨L, hL, fun x hxx => himp x (hx x hxx)⟩

theorem six_sub_derived : ∀ x ∈ sixNames, x ∈ derivedNames := by
  intro x hx
  fin_cases hx <;> decide

theorem trio_sub_derived : ∀ x ∈ tempTrio, x ∈ derivedNames := by
  intro x hx
  fin_cases hx <;> decide

theorem writeFirst_facts (t : Table) (name : String) (src : List String)
    (hwf : t.WF) (hsrc : ∀ x ∈ src, x ∈ t.header) :
    (writeFirst t name src).WF ∧
    (writeFirst t name src).rows.length = t.rows.length ∧
    (∃ L, (writeFirst t name src).header = t.header ++ L ∧ ∀ x ∈ L, x = name) ∧
    MapsRows t (writeFirst t name src) ∧
    (∀ m ∈ t.header, (writeFirst t name src).colIdx m = t.colIdx m) ∧
    (∀ m ∈ t.header, m ≠ name → (writeFirst t name src).getCol m = t.getCol m) ∧
    t.header ⊆ (writeFirst t name src).header := by
  cases src with
  | nil =>
    exact ⟨hwf, rfl, ⟨[], by show t.header = t.header ++ []; simp, by simp⟩,
      mapsRows_refl t, fun m _ => rfl, fun m _ _ => rfl, fun x hx => hx⟩
  | cons m rest =>
    have hm : m ∈ t.header := hsrc m (List.mem_cons_self m rest)
    have hlen : (t.getCol m).length = t.rows.length := getCol_length_of_mem t m hm
    exact ⟨WF_setColL _ _ _ hwf hlen,
      length_rows_setColL _ _ _ hlen,
      header_ext_setColL _ _ _,
      mapsRows_setColL _ _ _ (getCol_is_map t m hm),
      fun m2 hm2 => colIdx_setColL_of_mem _ _ _ _ hm2,
      fun m2 hm2 hne => getCol_setColL_ne _ _ _ _ hwf hlen hm2 hne,
      header_subset_setColL _ _ _⟩

theorem writeFirst_self (t : Table) (name : String) (m : String)
    (rest : List String) (hwf : t.WF) (hm : m ∈ t.header) :
    (writeFirst t name (m :: rest)).getCol name = t.getCol m ∧
    name ∈ (writeFirst t name (m :: rest)).header :=
  ⟨getCol_setColL_self _ _ _ hwf (getCol_length_of_mem t m hm),
    mem_setColL_self _ _ _⟩

theorem addTempMean_facts (t : Table) (tc : List String)
    (hwf : t.WF) (htc : ∀ x ∈ tc, x ∈ t.header) :
    (addTempMean t tc).WF ∧
    (addTempMean t tc).rows.length = t.rows.length ∧
    (∃ L, (addTempMean t tc).header = t.header ++ L ∧ ∀ x ∈ L, x = "Temp_Mean") ∧
    MapsRows t (addTempMean t tc) ∧
    (∀ m ∈ t.header, (addTempMean t tc).colIdx m = t.colIdx m) ∧
    (∀ m ∈ t.header, m ≠ "Temp_Mean" → (addTempMean t tc).getCol m = t.getCol m) ∧
    t.header ⊆ (addTempMean t tc).header := by
  cases hmc : tc.filter isMeanName with
  | cons m ms =>
    have hred : addTempMean t tc = t.setColL "Temp_Mean" (t.getCol m) := by
      unfold addTempMean
      rw [hmc]
    have hm : m ∈ t.header :=
      htc m (List.mem_of_mem_filter (by rw [hmc]; exact List.mem_cons_self m ms))
    have hlen : (t.getCol m).length = t.rows.length := getCol_length_of_mem t m hm
    rw [hred]
    exact ⟨WF_setColL _ _ _ hwf hlen,
      length_rows_setColL _ _ _ hlen,
      header_ext_setColL _ _ _,
      mapsRows_setColL _ _ _ (getCol_is_map t m hm),
      fun m2 hm2 => colIdx_setColL_of_mem _ _ _ _ hm2,
      fun m2 hm2 hne => getCol_setColL_ne _ _ _ _ hwf hlen hm2 hne,
      header_subset_setColL _ _ _⟩
  | nil =>
    cases htc2 : tc with
    | nil =>
      subst htc2
      exact ⟨hwf, rfl, ⟨[], by show t.header = t.header ++ []; simp, by simp⟩,
        mapsRows_refl t, fun m _ => rfl, fun m _ _ => rfl, fun x hx => hx⟩
    | cons a rest =>
      subst htc2
      cases hrest : rest with
      | nil =>
        subst hrest
        have hred : addTempMean t [a] = t.setColL "Temp_Mean" (t.getCol a) := by
          unfold addTempMean
          rw [hmc]
        have ha : a ∈ t.header := htc a (List.mem_cons_self a [])
        have hlen : (t.getCol a).length = t.rows.length := getCol_length_of_mem t a ha
        rw [hred]
        exact ⟨WF_setColL _ _ _ hwf hlen,
          length_rows_setColL _ _ _ hlen,
          header_ext_setColL _ _ _,
          mapsRows_setColL _ _ _ (getCol_is_map t a ha),
          fun m2 hm2 => colIdx_setColL_of_mem _ _ _ _ hm2,
          fun m2 hm2 hne => getCol_setColL_ne _ _ _ _ hwf hlen hm2 hne,
          header_subset_setColL _ _ _⟩
      | cons b rest2 =>
        subst hrest
        have hred : addTempMean t (a :: b :: rest2) =
            t.setColL "Temp_Mean"
              ((List.zipWith Cell.add (t.getCol a) (t.getCol b)).map Cell.half) := by
          unfold addTempMean
          rw [hmc]
        have ha : a ∈ t.header := htc a (List.mem_cons_self a (b :: rest2))
        have hb : b ∈ t.header :=
          htc b (List.mem_cons_of_mem a (List.mem_cons_self b rest2))
        have hlena : (t.getCol a).length = t.rows.length := getCol_length_of_mem t a ha
        have hlenb : (t.getCol b).length = t.rows.length := getCol_length_of_mem t b hb
        have hlen : ((List.zipWith Cell.add (t.getCol a) (t.getCol b)).map Cell.half).length
            = t.rows.length := by
          rw [List.length_map, List.length_zipWith, hlena, hlenb, Nat.min_self]
        have hmap : ∃ g, (List.zipWith Cell.add (t.getCol a) (t.getCol b)).map Cell.half
            = t.rows.map g := by
          obtain ⟨ia, hia⟩ := idxOfCol_of_mem a t.header ha
          obtain ⟨ib, hib⟩ := idxOfCol_of_mem b t.header hb
          rw [getCol_eq_map_of_some t a ia hia, getCol_eq_map_of_some t b ib hib,
            zipWith_map_map, List.map_map]
          exact ⟨_, rfl⟩
        rw [hred]
        exact ⟨WF_setColL _ _ _ hwf hlen,
          length_rows_setColL _ _ _ hlen,
          header_ext_setColL _ _ _,
          mapsRows_setColL _ _ _ hmap,
          fun m2 hm2 => colIdx_setColL_of_mem _ _ _ _ hm2,
          fun m2 hm2 hne => getCol_setColL_ne _ _ _ _ hwf hlen hm2 hne,
          header_subset_setColL _ _ _⟩

theorem addTemp_facts (t : Table) (hwf : t.WF) :
    (addTemp t).WF ∧
    (addTemp t).rows.length = t.rows.length ∧
    (∃ L, (addTemp t).header = t.header ++ L ∧ ∀ x ∈ L, x ∈ tempTrio) ∧
    MapsRows t (addTemp t) ∧
    (∀ m ∈ t.header, (addTemp t).colIdx m = t.colIdx m) ∧
    (∀ m ∈ t.header, m ≠ "Temp_Mean" → m ≠ "Temp_Max" → m ≠ "Temp_Min" →
      (addTemp t).getCol m = t.getCol m) ∧
    t.header ⊆ (addTemp t).header := by
  by_cases hemp : (t.header.filter isTempName).isEmpty
  · have hred : addTemp t = t := by
      unfold addTemp
      rw [if_pos hemp]
    rw [hred]
    exact ⟨hwf, rfl, ⟨[], by simp, by simp⟩, mapsRows_refl t,
      fun m _ => rfl, fun m _ _ _ _ => rfl, fun x hx => hx⟩
  · have hred : addTemp t =
        writeFirst
          (writeFirst (addTempMean t (t.header.filter isTempName)) "Temp_Max"
            ((t.header.filter isTempName).filter isMaxName))
          "Temp_Min" ((t.header.filter isTempName).filter isMinName) := by
      unfold addTemp addTempMin addTempMax
      rw [if_neg hemp]
    have htc : ∀ x ∈ t.header.filter isTempName, x ∈ t.header :=
      fun x hx => List.mem_of_mem_filter hx
    obtain ⟨hwfA, hrlA, hextA, hmapsA, hidxA, hgcA, hsubA⟩ :=
      addTempMean_facts t (t.header.filter isTempName) hwf htc
    have htcA : ∀ x ∈ (t.header.filter isTempName).filter isMaxName,
        x ∈ (addTempMean t (t.header.filter isTempName)).header :=
      fun x hx => hsubA (htc x (List.mem_of_mem_filter hx))
    obtain ⟨hwfB, hrlB, hextB, hmapsB, hidxB, hgcB, hsubB⟩ :=
      writeFirst_facts (addTempMean t (t.header.filter isTempName)) "Temp_Max"
        ((t.header.filter isTempName).filter isMaxName) hwfA htcA
    have htcB : ∀ x ∈ (t.header.filter isTempName).filter isMinName,
        x ∈ (writeFirst (addTempMean t (t.header.filter isTempName)) "Temp_Max"
          ((t.header.filter isTempName).filter isMaxName)).header :=
      fun x hx => hsubB (hsubA (htc x (List.mem_of_mem_filter hx)))
    obtain ⟨hwfC, hrlC, hextC, hmapsC, hidxC, hgcC, hsubC⟩ :=
      writeFirst_facts
        (writeFirst (addTempMean t (t.header.filter isTempName)) "Temp_Max"
          ((t.header.filter isTempName).filter isMaxName)) "Temp_Min"
        ((t.header.filter isTempName).filter isMinName) hwfB htcB
    rw [hred]
    refine ⟨hwfC, by rw [hrlC, hrlB, hrlA], ?_, ?_, ?_, ?_, ?_⟩
    · exact header_ext_trans _ _ _ _
        (header_ext_trans _ _ _ _
          (header_ext_mono _ _ _ _ hextA (fun x hx => by rw [hx]; decide))
          (header_ext_mono _ _ _ _ hextB (fun x hx => by rw [hx]; decide)))
        (header_ext_mono _ _ _ _ hextC (fun x hx => by rw [hx]; decide))
    · exact mapsRows_trans _ _ _ (mapsRows_trans _ _ _ hmapsA hmapsB) hmapsC
    · intro m hm
      rw [hidxC m (hsubB (hsubA hm)), hidxB m (hsubA hm), hidxA m hm]
    · intro m hm h1 h2 h3
      rw [hgcC m (hsubB (hsubA hm)) h3, hgcB m (hsubA hm) h2, hgcA m hm h1]
    · exact fun x hx => hsubC (hsubB (hsubA hx))

/-! ## Facts about the whole pre-drop frame (lines 33-81) -/

theorem stage8_facts (p : Cell → DRes) (t : Table) (hwf : t.WF) :
    (stage8 p t).WF ∧
    (stage8 p t).rows.length = t.rows.length ∧
    (∃ L, (stage8 p t).header = t.header ++ L ∧ ∀ x ∈ L, x ∈ derivedNames) ∧
    (stage8 p t).getCol "Date" = parsedCol p t ∧
    MapsRows t (stage8 p t) ∧
    "Date" ∈ (stage8 p t).header ∧
    (∀ c ∈ t.header, c ∉ derivedNames →
      (stage8 p t).getCol c = t.getCol c ∧ (stage8 p t).colIdx c = t.colIdx c) := by
  obtain ⟨hwf6, hrl6, hext6, hdate6, hmaps6, hmemD6, hpres6⟩ := stage6_facts p t hwf
  obtain ⟨hwf7, hrl7, hext7, hmaps7, hidx7, hgc7, hsub7⟩ :=
    addTemp_facts (stage6 p t) hwf6
  have hsrcP : ∀ x ∈ (stage6 p t).header.filter isPrecipName,
      x ∈ (addTemp (stage6 p t)).header :=
    fun x hx => hsub7 (List.mem_of_mem_filter hx)
  obtain ⟨hwf8, hrl8, hext8, hmaps8, hidx8, hgc8, hsub8⟩ :=
    writeFirst_facts (addTemp (stage6 p t)) "Precipitation"
      ((stage6 p t).header.filter isPrecipName) hwf7 hsrcP
  have hred : stage8 p t = writeFirst (addTemp (stage6 p t)) "Precipitation"
      ((stage6 p t).header.filter isPrecipName) := rfl
  rw [hred]
  refine ⟨hwf8, by rw [hrl8, hrl7, hrl6], ?_, ?_, ?_, ?_, ?_⟩
  · exact header_ext_trans _ _ _ _
      (header_ext_trans _ _ _ _
        (header_ext_mono _ _ _ _ hext6 six_sub_derived)
        (header_ext_mono _ _ _ _ hext7 trio_sub_derived))
      (header_ext_mono _ _ _ _ hext8 (fun x hx => by rw [hx]; decide))
  · have hD7 : (addTemp (stage6 p t)).getCol "Date" = (stage6 p t).getCol "Date" :=
      hgc7 "Date" hmemD6 (by decide) (by decide) (by decide)
    have hD8 : (writeFirst (addTemp (stage6 p t)) "Precipitation"
        ((stage6 p t).header.filter isPrecipName)).getCol "Date"
        = (addTemp (stage6 p t)).getCol "Date" :=
      hgc8 "Date" (hsub7 hmemD6) (by decide)
    rw [hD8, hD7, hdate6]
  · exact mapsRows_trans _ _ _ (mapsRows_trans _ _ _ hmaps6 hmaps7) hmaps8
  · exact hsub8 (hsub7 hmemD6)
  · intro c hc hcd
    have hc6 : c ∉ sixNames := fun hmem => hcd (six_sub_derived c hmem)
    obtain ⟨hg6, hi6⟩ := hpres6 c hc hc6
    have hch6 : c ∈ (stage6 p t).header := by
      obtain ⟨L, hL, _⟩ := hext6
      rw [hL]
      exact List.mem_append_left _ hc
    have hne1 : c ≠ "Temp_Mean" := by
      intro he
      exact hcd (by rw [he]; decide)
    have hne2 : c ≠ "Temp_Max" := by
      intro he
      exact hcd (by rw [he]; decide)
    have hne3 : c ≠ "Temp_Min" := by
      intro he
      exact hcd (by rw [he]; decide)
    have hne4 : c ≠ "Precipitation" := by
      intro he
      exact hcd (by rw [he]; decide)
    constructor
    · rw [hgc8 c (hsub7 hch6) hne4, hgc7 c hch6 hne1 hne2 hne3, hg6]
    · rw [hidx8 c (hsub7 hch6), hidx7 c hch6, hi6]

theorem getCol_eq_idx_read (t : Table) (m : String) (hm : m ∈ t.header) :
    t.getCol m = t.rows.map (fun r => r.getD ((t.colIdx m).getD 0) Cell.na) := by
  obtain ⟨i, hi⟩ := idxOfCol_of_mem m t.header hm
  rw [getCol_eq_map_of_some t m i hi]
  simp [Table.colIdx, hi]

theorem temp_precip_tail (u : Table) (hwfu : u.WF)
    (hemp : (u.header.filter isTempName).isEmpty = false)
    (pc : List String) (hpc : ∀ x ∈ pc, x ∈ u.header)
    (v : List Cell)
    (hself : (addTempMean u (u.header.filter isTempName)).getCol "Temp_Mean" = v)
    (hmemA : "Temp_Mean" ∈ (addTempMean u (u.header.filter isTempName)).header) :
    "Temp_Mean" ∈ (writeFirst (addTemp u) "Precipitation" pc).header ∧
    (writeFirst (addTemp u) "Precipitation" pc).getCol "Temp_Mean" = v := by
  have htcmem : ∀ x ∈ u.header.filter isTempName, x ∈ u.header :=
    fun x hx => List.mem_of_mem_filter hx
  obtain ⟨hwfA, _, _, _, _, _, hsubA⟩ :=
    addTempMean_facts u (u.header.filter isTempName) hwfu htcmem
  have hsrcB : ∀ x ∈ (u.header.filter isTempName).filter isMaxName,
      x ∈ (addTempMean u (u.header.filter isTempName)).header :=
    fun x hx => hsubA (htcmem x (List.mem_of_mem_filter hx))
  obtain ⟨hwfB, _, _, _, _, hgcB, hsubB⟩ :=
    writeFirst_facts (addTempMean u (u.header.filter isTempName)) "Temp_Max"
      ((u.header.filter isTempName).filter isMaxName) hwfA hsrcB
  have hsrcC : ∀ x ∈ (u.header.filter isTempName).filter isMinName,
      x ∈ (writeFirst (addTempMean u (u.header.filter isTempName)) "Temp_Max"
        ((u.header.filter isTempName).filter isMaxName)).header :=
    fun x hx => hsubB (hsubA (htcmem x (List.mem_of_mem_filter hx)))
  obtain ⟨hwfC, _, _, _, _, hgcC, hsubC⟩ :=
    writeFirst_facts
      (writeFirst (addTempMean u (u.header.filter isTempName)) "Temp_Max"
        ((u.header.filter isTempName).filter isMaxName)) "Temp_Min"
      ((u.header.filter isTempName).filter isMinName) hwfB hsrcC
  have hredT : addTemp u =
      writeFirst
        (writeFirst (addTempMean u (u.header.filter isTempName)) "Temp_Max"
          ((u.header.filter isTempName).filter isMaxName))
        "Temp_Min" ((u.header.filter isTempName).filter isMinName) := by
    unfold addTemp addTempMin addTempMax
    rw [if_neg (by rw [hemp]; exact Bool.false_ne_true)]
  have hmemB : "Temp_Mean" ∈ (writeFirst (addTempMean u (u.header.filter isTempName))
      "Temp_Max" ((u.header.filter isTempName).filter isMaxName)).header :=
    hsubB hmemA
  have hmemC : "Temp_Mean" ∈ (addTemp u).header := by
    rw [hredT]
    exact hsubC hmemB
  have hpcT : ∀ x ∈ pc, x ∈ (addTemp u).header := by
    intro x hx
    rw [hredT]
    exact hsubC (hsubB (hsubA (hpc x hx)))
  have hwfT : (addTemp u).WF := by
    rw [hredT]
    exact hwfC
  obtain ⟨hwfP, _, _, _, _, hgcP, hsubP⟩ :=
    writeFirst_facts (addTemp u) "Precipitation" pc hwfT hpcT
  constructor
  · exact hsubP hmemC
  · rw [hgcP "Temp_Mean" hmemC (by decide)]
    rw [hredT]
    rw [hgcC "Temp_Mean" hmemB (by decide), hgcB "Temp_Mean" hmemA (by decide)]
    exact hself

theorem stage8_tempMean (p : Cell → DRes) (t : Table) (hwf : t.WF)
    (hne : t.header.filter isTempName ≠ []) :
    "Temp_Mean" ∈ (stage8 p t).header ∧
    (stage8 p t).getCol "Temp_Mean" = t.rows.map (tempMeanPolicy t) := by
  obtain ⟨hwf6, hrl6, hext6, hdate6, hmaps6, hmemD6, hpres6⟩ := stage6_facts p t hwf
  have htc6 : (stage6 p t).header.filter isTempName = t.header.filter isTempName := by
    obtain ⟨L, hL, hx⟩ := hext6
    exact filter_header_ext t (stage6 p t) isTempName L hL
      (fun x hxx => sixNames_not_temp x (hx x hxx))
  have hemp : ((stage6 p t).header.filter isTempName).isEmpty = false := by
    rw [htc6]
    cases hcc : t.header.filter isTempName with
    | nil => exact absurd hcc hne
    | cons a rest => rfl
  have hpcmem : ∀ x ∈ (stage6 p t).header.filter isPrecipName,
      x ∈ (stage6 p t).header := fun x hx => List.mem_of_mem_filter hx
  -- facts about the temperature-like source columns
  have hsix : ∀ x ∈ t.header.filter isTempName, x ∈ t.header ∧ x ∉ sixNames := by
    intro x hx
    obtain ⟨hxm, hxt⟩ := List.mem_filter.mp hx
    refine ⟨hxm, fun hmem => ?_⟩
    have h1 := sixNames_not_temp x hmem
    rw [h1] at hxt
    cases hxt
  have hread6 : ∀ x ∈ t.header.filter isTempName,
      (stage6 p t).getCol x = t.getCol x := by
    intro x hx
    obtain ⟨hxm, hx6⟩ := hsix x hx
    exact (hpres6 x hxm hx6).1
  have hmem6 : ∀ x ∈ t.header.filter isTempName, x ∈ (stage6 p t).header := by
    intro x hx
    obtain ⟨L, hL, _⟩ := hext6
    rw [hL]
    exact List.mem_append_left _ (hsix x hx).1
  -- reduce stage8 to the tail shape
  have hred8 : stage8 p t = writeFirst (addTemp (stage6 p t)) "Precipitation"
      ((stage6 p t).header.filter isPrecipName) := rfl
  rw [hred8]
  -- case analysis of the Temp_Mean selection (lines 61-68)
  cases hmc : (t.header.filter isTempName).filter isMeanName with
  | cons m ms =>
    have hm := hsix m (List.mem_of_mem_filter (by rw [hmc]; exact List.mem_cons_self m ms))
    have hredA : addTempMean (stage6 p t) ((stage6 p t).header.filter isTempName) =
        (stage6 p t).setColL "Temp_Mean" ((stage6 p t).getCol m) := by
      unfold addTempMean
      rw [htc6, hmc]
    have hmemm6 : m ∈ (stage6 p t).header :=
      hmem6 m (List.mem_of_mem_filter (by rw [hmc]; exact List.mem_cons_self m ms))
    have hselfA : (addTempMean (stage6 p t)
        ((stage6 p t).header.filter isTempName)).getCol "Temp_Mean"
        = (stage6 p t).getCol m := by
      rw [hredA]
      exact getCol_setColL_self _ _ _ hwf6 (getCol_length_of_mem _ _ hmemm6)
    have hmemA : "Temp_Mean" ∈ (addTempMean (stage6 p t)
        ((stage6 p t).header.filter isTempName)).header := by
      rw [hredA]
      exact mem_setColL_self _ _ _
    obtain ⟨h1, h2⟩ := temp_precip_tail (stage6 p t) hwf6 hemp _ hpcmem _ hselfA hmemA
    refine ⟨h1, ?_⟩
    rw [h2, hread6 m (List.mem_of_mem_filter (by rw [hmc]; exact List.mem_cons_self m ms))]
    rw [getCol_eq_idx_read t m hm.1]
    apply map_congr_mem
    intro r _
    unfold tempMeanPolicy
    rw [hmc]
  | nil =>
    cases htcc : t.header.filter isTempName with
    | nil => exact absurd htcc hne
    | cons a rest =>
      cases hrest : rest with
      | nil =>
        have ha := hsix a (by rw [htcc]; exact List.mem_cons_self a rest)
        have hredA : addTempMean (stage6 p t) ((stage6 p t).header.filter isTempName) =
            (stage6 p t).setColL "Temp_Mean" ((stage6 p t).getCol a) := by
          unfold addTempMean
          rw [htc6, hmc, htcc, hrest]
        have hmema6 : a ∈ (stage6 p t).header :=
          hmem6 a (by rw [htcc]; exact List.mem_cons_self a rest)
        have hselfA : (addTempMean (stage6 p t)
            ((stage6 p t).header.filter isTempName)).getCol "Temp_Mean"
            = (stage6 p t).getCol a := by
          rw [hredA]
          exact getCol_setColL_self _ _ _ hwf6 (getCol_length_of_mem _ _ hmema6)
        have hmemA : "Temp_Mean" ∈ (addTempMean (stage6 p t)
            ((stage6 p t).header.filter isTempName)).header := by
          rw [hredA]
          exact mem_setColL_self _ _ _
        obtain ⟨h1, h2⟩ := temp_precip_tail (stage6 p t) hwf6 hemp _ hpcmem _ hselfA hmemA
        refine ⟨h1, ?_⟩
        rw [h2, hread6 a (by rw [htcc]; exact List.mem_cons_self a rest)]
        rw [getCol_eq_idx_read t a ha.1]
        apply map_congr_mem
        intro r _
        unfold tempMeanPolicy
        rw [hmc, htcc, hrest]
      | cons b rest2 =>
        have ha := hsix a (by rw [htcc]; exact List.mem_cons_self a rest)
        have hb := hsix b (by
          rw [htcc, hrest]
          exact List.mem_cons_of_mem a (List.mem_cons_self b rest2))
        have hredA : addTempMean (stage6 p t) ((stage6 p t).header.filter isTempName) =
            (stage6 p t).setColL "Temp_Mean"
              ((List.zipWith Cell.add ((stage6 p t).getCol a)
                ((stage6 p t).getCol b)).map Cell.half) := by
          unfold addTempMean
          rw [htc6, hmc, htcc, hrest]
        have hmema6 : a ∈ (stage6 p t).header :=
          hmem6 a (by rw [htcc]; exact List.mem_cons_self a rest)
        have hmemb6 : b ∈ (stage6 p t).header :=
          hmem6 b (by
            rw [htcc, hrest]
            exact List.mem_cons_of_mem a (List.mem_cons_self b rest2))
        have hlen : ((List.zipWith Cell.add ((stage6 p t).getCol a)
            ((stage6 p t).getCol b)).map Cell.half).length
            = (stage6 p t).rows.length := by
          rw [List.length_map, List.length_zipWith,
            getCol_length_of_mem _ _ hmema6, getCol_length_of_mem _ _ hmemb6,
            Nat.min_self]
        have hselfA : (addTempMean (stage6 p t)
            ((stage6 p t).header.filter isTempName)).getCol "Temp_Mean"
            = (List.zipWith Cell.add ((stage6 p t).getCol a)
                ((stage6 p t).getCol b)).map Cell.half := by
          rw [hredA]
          exact getCol_setColL_self _ _ _ hwf6 hlen
        have hmemA : "Temp_Mean" ∈ (addTempMean (stage6 p t)
            ((stage6 p t).header.filter isTempName)).header := by
          rw [hredA]
          exact mem_setColL_self _ _ _
        obtain ⟨h1, h2⟩ := temp_precip_tail (stage6 p t) hwf6 hemp _ hpcmem _ hselfA hmemA
        refine ⟨h1, ?_⟩
        rw [h2, hread6 a (by rw [htcc]; exact List.mem_cons_self a rest),
          hread6 b (by
            rw [htcc, hrest]
            exact List.mem_cons_of_mem a (List.mem_cons_self b rest2))]
        rw [getCol_eq_idx_read t a ha.1, getCol_eq_idx_read t b hb.1,
          zipWith_map_map, List.map_map]
        apply map_congr_mem
        intro r _
        show Cell.half (Cell.add _ _) = tempMeanPolicy t r
        unfold tempMeanPolicy
        rw [hmc, htcc, hrest]

theorem stage8_precip (p : Cell → DRes) (t : Table) (hwf : t.WF)
    (c : String) (rest : List String)
    (hpcf : t.header.filter isPrecipName = c :: rest) :
    "Precipitation" ∈ (stage8 p t).header ∧
    (stage8 p t).getCol "Precipitation" = t.getCol c := by
  obtain ⟨hwf6, hrl6, hext6, hdate6, hmaps6, hmemD6, hpres6⟩ := stage6_facts p t hwf
  obtain ⟨hwf7, hrl7, hext7, hmaps7, hidx7, hgc7, hsub7⟩ :=
    addTemp_facts (stage6 p t) hwf6
  have hpc6 : (stage6 p t).header.filter isPrecipName = c :: rest := by
    obtain ⟨L, hL, hx⟩ := hext6
    rw [filter_header_ext t (stage6 p t) isPrecipName L hL
      (fun x hxx => sixNames_not_precip x (hx x hxx))]
    exact hpcf
  have hcp : c ∈ t.header ∧ isPrecipName c = true :=
    List.mem_filter.mp (by rw [hpcf]; exact List.mem_cons_self c rest)
  have hc6 : c ∉ sixNames := by
    intro hmem
    have h1 := sixNames_not_precip c hmem
    rw [h1] at hcp
    cases hcp.2
  have hcm6 : c ∈ (stage6 p t).header := by
    obtain ⟨L, hL, _⟩ := hext6
    rw [hL]
    exact List.mem_append_left _ hcp.1
  have hcm7 : c ∈ (addTemp (stage6 p t)).header := hsub7 hcm6
  have hred8 : stage8 p t = writeFirst (addTemp (stage6 p t)) "Precipitation"
      ((stage6 p t).header.filter isPrecipName) := rfl
  rw [hred8, hpc6]
  obtain ⟨hs1, hs2⟩ := writeFirst_self (addTemp (stage6 p t)) "Precipitation" c rest hwf7 hcm7
  refine ⟨hs2, ?_⟩
  rw [hs1]
  have hne1 : c ≠ "Temp_Mean" := by
    intro he
    rw [he] at hcp
    exact absurd hcp.2 (by decide)
  have hne2 : c ≠ "Temp_Max" := by
    intro he
    rw [he] at hcp
    exact absurd hcp.2 (by decide)
  have hne3 : c ≠ "Temp_Min" := by
    intro he
    rw [he] at hcp
    exact absurd hcp.2 (by decide)
  rw [hgc7 c hcm6 hne1 hne2 hne3]
  exact (hpres6 c hcp.1 hc6).1

theorem stage8_no_precip (p : Cell → DRes) (t : Table) (hwf : t.WF)
    (hpcf : t.header.filter isPrecipName = []) :
    "Precipitation" ∉ (stage8 p t).header := by
  obtain ⟨hwf6, hrl6, hext6, hdate6, hmaps6, hmemD6, hpres6⟩ := stage6_facts p t hwf
  obtain ⟨hwf7, hrl7, hext7, hmaps7, hidx7, hgc7, hsub7⟩ :=
    addTemp_facts (stage6 p t) hwf6
  have hpc6 : (stage6 p t).header.filter isPrecipName = [] := by
    obtain ⟨L, hL, hx⟩ := hext6
    rw [filter_header_ext t (stage6 p t) isPrecipName L hL
      (fun x hxx => sixNames_not_precip x (hx x hxx))]
    exact hpcf
  have hred8 : stage8 p t = addTemp (stage6 p t) := by
    have h : stage8 p t = writeFirst (addTemp (stage6 p t)) "Precipitation"
        ((stage6 p t).header.filter isPrecipName) := rfl
    rw [h, hpc6, writeFirst_nil]
  rw [hred8]
  intro hmem
  obtain ⟨L6, hL6, hx6⟩ := hext6
  obtain ⟨L7, hL7, hx7⟩ := hext7
  rw [hL7, hL6] at hmem
  rcases List.mem_append.mp hmem with hmem1 | hmem7
  · rcases List.mem_append.mp hmem1 with hmemt | hmem6
    · have := of_filter_eq_nil isPrecipName t.header hpcf "Precipitation" hmemt
      exact absurd this (by decide)
    · have := hx6 "Precipitation" hmem6
      revert this
      decide
  · have := hx7 "Precipitation" hmem7
    revert this
    decide

/-! ## Facts about `dropna` and the whole load (lines 84-94) -/

theorem eq_of_map_map_eq {α β γ : Type} (f : β → γ) (E : α → β) (g : α → γ)
    (l : List α) (h : (l.map E).map f = l.map g) : ∀ a ∈ l, f (E a) = g a := by
  induction l with
  | nil => intro a ha; cases ha
  | cons a as ih =>
    simp only [List.map, List.cons.injEq] at h
    intro x hx
    rcases List.mem_cons.mp hx with h1 | h2
    · rw [h1]; exact h.1
    · exact ih h.2 x h2

theorem dropnaDate_eq (t : Table) (i : Nat) (hi : t.colIdx "Date" = some i) :
    t.dropnaDate =
      Table.mk t.header (t.rows.filter (fun r => r.getD i Cell.na != Cell.na)) := by
  unfold Table.dropnaDate
  rw [hi]

theorem load_eq_none_of_err (p : Cell → DRes) (t : Table)
    (h : ∃ c ∈ dateSrc t, toDatetime p c = DRes.err) :
    load_data p t = none := by
  obtain ⟨c, hc, he⟩ := h
  have hany : ((dateSrc t).any (fun c => toDatetime p c == DRes.err)) = true := by
    rw [List.any_eq_true]
    exact ⟨c, hc, by rw [he]; rfl⟩
  unfold load_data
  rw [if_pos hany]

theorem load_eq_some_of_ok (p : Cell → DRes) (t : Table)
    (h : ∀ c ∈ dateSrc t, toDatetime p c ≠ DRes.err) :
    load_data p t = some (stage8 p t).dropnaDate := by
  unfold load_data
  rw [if_neg (fun hx => by
    rw [List.any_eq_true] at hx
    obtain ⟨c, hc, he⟩ := hx
    exact h c hc (of_decide_eq_true he))]

theorem load_eq_dropna (p : Cell → DRes) (t : Table) (out : Table)
    (hload : load_data p t = some out) :
    out = (stage8 p t).dropnaDate := by
  unfold load_data at hload
  by_cases hany : ((dateSrc t).any (fun c => toDatetime p c == DRes.err)) = true
  · rw [if_pos hany] at hload
    cases hload
  · rw [if_neg hany] at hload
    exact (Option.some.inj hload).symm

theorem load_header (p : Cell → DRes) (t : Table) (out : Table) (hwf : t.WF)
    (hload : load_data p t = some out) :
    out.header = (stage8 p t).header := by
  obtain ⟨_, _, _, _, _, hmemD8, _⟩ := stage8_facts p t hwf
  obtain ⟨di, hdi⟩ := idxOfCol_of_mem "Date" (stage8 p t).header hmemD8
  rw [load_eq_dropna p t out hload, dropnaDate_eq (stage8 p t) di hdi]

theorem load_getCol (p : Cell → DRes) (t : Table) (out : Table) (hwf : t.WF)
    (hload : load_data p t = some out)
    (m : String) (hm : m ∈ (stage8 p t).header)
    (g : List Cell → Cell)
    (hg : (stage8 p t).getCol m = t.rows.map g) :
    out.getCol m = (t.rows.filter (keepRow p t)).map g := by
  obtain ⟨hwf8, hrl8, hext8, hdate8, hmaps8, hmemD8, _⟩ := stage8_facts p t hwf
  obtain ⟨di, hdi⟩ := idxOfCol_of_mem "Date" (stage8 p t).header hmemD8
  obtain ⟨jm, hjm⟩ := idxOfCol_of_mem m (stage8 p t).header hm
  obtain ⟨E, hE⟩ := hmaps8
  have hm8 : (stage8 p t).getCol m =
      (stage8 p t).rows.map (fun r => r.getD jm Cell.na) :=
    getCol_eq_map_of_some _ m jm hjm
  have hgm : ∀ r ∈ t.rows, (E r).getD jm Cell.na = g r := by
    apply eq_of_map_map_eq (fun r => r.getD jm Cell.na) E g t.rows
    rw [← hE, ← hm8, hg]
  have hd8 : (stage8 p t).getCol "Date" =
      (stage8 p t).rows.map (fun r => r.getD di Cell.na) :=
    getCol_eq_map_of_some _ "Date" di hdi
  have hgd : ∀ r ∈ t.rows, (E r).getD di Cell.na =
      dresCell (toDatetime p (r.getD (dateIdx t) Cell.na)) := by
    apply eq_of_map_map_eq (fun r => r.getD di Cell.na) E _ t.rows
    rw [← hE, ← hd8, hdate8, parsedCol_eq_map]
  have hcolout : out.getCol m = out.rows.map (fun r => r.getD jm Cell.na) := by
    apply getCol_eq_map_of_some
    show idxOfCol m out.header = some jm
    rw [load_header p t out hwf hload]
    exact hjm
  have hrowsout : out.rows =
      (stage8 p t).rows.filter (fun r => r.getD di Cell.na != Cell.na) := by
    rw [load_eq_dropna p t out hload, dropnaDate_eq (stage8 p t) di hdi]
  rw [hcolout, hrowsout, hE, filter_of_map, List.map_map]
  rw [filter_congr_mem _ (keepRow p t) t.rows
    (fun r hr => by
      show ((E r).getD di Cell.na != Cell.na) = keepRow p t r
      rw [hgd r hr]
      rfl)]
  apply map_congr_mem
  intro r hr
  show (E r).getD jm Cell.na = g r
  exact hgm r (List.mem_of_mem_filter hr)

theorem load_length (p : Cell → DRes) (t : Table) (out : Table) (hwf : t.WF)
    (hload : load_data p t = some out) :
    out.rows.length = (t.rows.filter (keepRow p t)).length := by
  obtain ⟨hwf8, hrl8, hext8, hdate8, hmaps8, hmemD8, _⟩ := stage8_facts p t hwf
  obtain ⟨di, hdi⟩ := idxOfCol_of_mem "Date" (stage8 p t).header hmemD8
  obtain ⟨E, hE⟩ := hmaps8
  have hd8 : (stage8 p t).getCol "Date" =
      (stage8 p t).rows.map (fun r => r.getD di Cell.na) :=
    getCol_eq_map_of_some _ "Date" di hdi
  have hgd : ∀ r ∈ t.rows, (E r).getD di Cell.na =
      dresCell (toDatetime p (r.getD (dateIdx t) Cell.na)) := by
    apply eq_of_map_map_eq (fun r => r.getD di Cell.na) E _ t.rows
    rw [← hE, ← hd8, hdate8, parsedCol_eq_map]
  have hrowsout : out.rows =
      (stage8 p t).rows.filter (fun r => r.getD di Cell.na != Cell.na) := by
    rw [load_eq_dropna p t out hload, dropnaDate_eq (stage8 p t) di hdi]
  rw [hrowsout, hE, filter_of_map, List.length_map]
  rw [filter_congr_mem _ (keepRow p t) t.rows
    (fun r hr => by
      show ((E r).getD di Cell.na != Cell.na) = keepRow p t r
      rw [hgd r hr]
      rfl)]

/-! ## The claims -/

/-- C1: for every raw table whose header yields a non-empty `temp_cols` set
(columns whose lower-cased name contains one of `temp`, `t_`, `tx`, `tn`,
`tg`, in header order), `Temp_Mean` is chosen by this policy: the first
`temp_cols` entry whose name contains `mean`, `avg`, `tg` or `moy`
(case-insensitive) if one exists; otherwise, when `temp_cols` has at least
two entries, the per-row arithmetic average of the first two entries;
otherwise the single entry.  In particular two columns `TN`/`TX` with no
mean-like name yield the elementwise average. -/
theorem C1_temp_mean_policy (p : Cell → DRes) (t : Table) (out : Table)
    (hwf : t.WF) (hload : load_data p t = some out)
    (hne : t.header.filter isTempName ≠ []) :
    "Temp_Mean" ∈ out.header ∧
    out.getCol "Temp_Mean" = (t.rows.filter (keepRow p t)).map (tempMeanPolicy t) := by
  obtain ⟨hmem, hcol⟩ := stage8_tempMean p t hwf hne
  constructor
  · rw [load_header p t out hwf hload]
    exact hmem
  · exact load_getCol p t out hwf hload "Temp_Mean" hmem (tempMeanPolicy t) hcol

/-- C1 witness: the policy theorem applied to a concrete `TN`/`TX` table. -/
theorem C1_temp_mean_policy_witness :
    ∃ out, load_data isoParse wtC1 = some out ∧
      ("Temp_Mean" ∈ out.header ∧
        out.getCol "Temp_Mean" =
          (wtC1.rows.filter (keepRow isoParse wtC1)).map (tempMeanPolicy wtC1)) :=
  ⟨_, rfl, C1_temp_mean_policy isoParse wtC1 _ (by decide) rfl (by decide)⟩

/-- C2 counterexample: on the header `["Time", "Date"]` the pipeline parses
the `Time` column (value `2020-01-01`) as the date source even though a
column named exactly `Date` (holding `2021-05-06`) is present, refuting the
claim that an exactly-named `Date` column is chosen regardless of its
position. -/
theorem C2_counterexample :
    (load_data isoParse wtC2a).map (fun o => o.getCol "Date")
      = some [Cell.date ⟨2020, 1, 1⟩] ∧
    wtC2a.getCol "Date" = [Cell.str "2021-05-06"] ∧
    isoParse (Cell.str "2021-05-06") = DRes.ok ⟨2021, 5, 6⟩ ∧
    (⟨2020, 1, 1⟩ : YMD) ≠ ⟨2021, 5, 6⟩ := by decide

/-- C2 (amended): the date source is the *first* header column whose name
contains `date` or `time` (case-insensitive); a column named exactly `Date`
is chosen exactly when it is that first match, and then the output `Date`
column consists of its parsed values with the missing ones dropped. -/
theorem C2_amended_first_date_col (p : Cell → DRes) (t : Table) (out : Table)
    (hwf : t.WF) (hload : load_data p t = some out) (cs : List String)
    (hf : t.header.filter isDateName = "Date" :: cs) :
    dateSrc t = t.getCol "Date" ∧
    out.getCol "Date" = (parsedCol p t).filter (fun c => c != Cell.na) := by
  have hds : dateSrc t = t.getCol "Date" := by
    unfold dateSrc dateColsOf
    rw [hf]
  refine ⟨hds, ?_⟩
  obtain ⟨_, _, _, hdate8, _, hmemD8, _⟩ := stage8_facts p t hwf
  have h1 := load_getCol p t out hwf hload "Date" hmemD8
    (fun r => dresCell (toDatetime p (r.getD (dateIdx t) Cell.na)))
    (by rw [hdate8, parsedCol_eq_map])
  rw [h1, parsedCol_eq_map, filter_of_map]
  rfl

/-- C2 witness: the amended theorem applied to a table whose `Date` column
is the first date-like column. -/
theorem C2_amended_first_date_col_witness :
    ∃ out, load_data isoParse wtC2b = some out ∧
      (dateSrc wtC2b = wtC2b.getCol "Date" ∧
        out.getCol "Date" =
          (parsedCol isoParse wtC2b).filter (fun c => c != Cell.na)) :=
  ⟨_, rfl, C2_amended_first_date_col isoParse wtC2b _ (by decide) rfl [] (by decide)⟩

/-- C3 counterexample: a single malformed date string (`zzz`) makes the
whole load fail (the vectorised `pd.to_datetime` raises and the handler
stops the script), even though the other row's date parses — refuting the
claim that a per-row date-parse failure never aborts the overall load. -/
theorem C3_counterexample :
    load_data isoParse wtC3a = none ∧
    isoParse (Cell.str "2020-01-01") = DRes.ok ⟨2020, 1, 1⟩ := by decide

/-- C3 (amended): rows whose date cell is *missing* are dropped locally and
the load continues; a present but unparseable date value raises inside
`pd.to_datetime`, and the caught raise aborts the entire load. -/
theorem C3_amended_row_failures (p : Cell → DRes) (t : Table) (hwf : t.WF) :
    ((∃ c ∈ dateSrc t, toDatetime p c = DRes.err) → load_data p t = none) ∧
    ((∀ c ∈ dateSrc t, toDatetime p c ≠ DRes.err) →
      ∃ out, load_data p t = some out ∧
        out.rows.length =
          ((dateSrc t).filter
            (fun c => dresCell (toDatetime p c) != Cell.na)).length) := by
  constructor
  · exact load_eq_none_of_err p t
  · intro hok
    refine ⟨(stage8 p t).dropnaDate, load_eq_some_of_ok p t hok, ?_⟩
    have hlen := load_length p t _ hwf (load_eq_some_of_ok p t hok)
    rw [hlen, dateSrc_eq_map, filter_of_map, List.length_map]
    rfl

/-- C3 witness: the amended theorem applied to a table with one parseable
and one missing date. -/
theorem C3_amended_row_failures_witness :
    ∃ out, load_data isoParse wtC3b = some out ∧
      out.rows.length =
        ((dateSrc wtC3b).filter
          (fun c => dresCell (toDatetime isoParse c) != Cell.na)).length :=
  (C3_amended_row_failures isoParse wtC3b (by decide)).2 (by decide)

/-- C4: row filtering is one-to-one outside date failures: when the load
succeeds, the output has exactly one row per input row whose date cell
survives (`keepRow`), in order; survival depends only on the date cell
(missing temperature or precipitation values never drop a row), and a row
survives exactly when its date value parses to a date. -/
theorem C4_row_filtering (p : Cell → DRes) (t : Table) (out : Table)
    (hwf : t.WF) (hload : load_data p t = some out) :
    out.rows.length = (t.rows.filter (keepRow p t)).length ∧
    out.getCol "Date" =
      (t.rows.filter (keepRow p t)).map
        (fun r => dresCell (toDatetime p (r.getD (dateIdx t) Cell.na))) ∧
    (∀ r ∈ t.rows, keepRow p t r = true ↔
      ∃ d, toDatetime p (r.getD (dateIdx t) Cell.na) = DRes.ok d) := by
  refine ⟨load_length p t out hwf hload, ?_, ?_⟩
  · obtain ⟨_, _, _, hdate8, _, hmemD8, _⟩ := stage8_facts p t hwf
    exact load_getCol p t out hwf hload "Date" hmemD8 _
      (by rw [hdate8, parsedCol_eq_map])
  · intro r _
    unfold keepRow
    cases hto : toDatetime p (r.getD (dateIdx t) Cell.na) with
    | ok d =>
      constructor
      · intro _
        exact ⟨d, rfl⟩
      · intro _
        rfl
    | nat =>
      constructor
      · intro hfalse
        exact absurd hfalse (by decide)
      · rintro ⟨d, hd⟩
        cases hd
    | err =>
      constructor
      · intro hfalse
        exact absurd hfalse (by decide)
      · rintro ⟨d, hd⟩
        cases hd

/-- C4 witness: the filtering theorem applied to a table with one good date
row and one missing-date row. -/
theorem C4_row_filtering_witness :
    ∃ out, load_data isoParse wtC4 = some out ∧
      (out.rows.length = (wtC4.rows.filter (keepRow isoParse wtC4)).length ∧
        out.getCol "Date" =
          (wtC4.rows.filter (keepRow isoParse wtC4)).map
            (fun r => dresCell (toDatetime isoParse (r.getD (dateIdx wtC4) Cell.na))) ∧
        (∀ r ∈ wtC4.rows, keepRow isoParse wtC4 r = true ↔
          ∃ d, toDatetime isoParse (r.getD (dateIdx wtC4) Cell.na) = DRes.ok d)) :=
  ⟨_, rfl, C4_row_filtering isoParse wtC4 _ (by decide) rfl⟩

/-- C5: the scenario of the specification: header `["DATE","TX","TN","RR"]`
with the single row `("2020-01-01", 10, 0, 5)` yields exactly one output row
with `Date` 2020-01-01, `Year` 2020, `Month` 1, `Season` Winter, `Temp_Max`
10, `Temp_Min` 0, `Temp_Mean` 5 and `Precipitation` 5. -/
theorem C5_scenario :
    ∃ out, load_data isoParse wtC5 = some out ∧
      out.getCol "Date" = [Cell.date ⟨2020, 1, 1⟩] ∧
      out.getCol "Year" = [Cell.num 2020] ∧
      out.getCol "Month" = [Cell.num 1] ∧
      out.getCol "Season" = [Cell.str "Winter"] ∧
      out.getCol "Temp_Max" = [Cell.num 10] ∧
      out.getCol "Temp_Min" = [Cell.num 0] ∧
      out.getCol "Temp_Mean" = [Cell.num 5] ∧
      out.getCol "Precipitation" = [Cell.num 5] ∧
      out.rows.length = 1 :=
  ⟨_, rfl, by decide⟩

/-- C6 counterexample: a table with no precipitation-like column whose only
date value is malformed: the load still fails (the date parse raises), so
"for every such raw table the load succeeds without error" is false as
stated — the precipitation-related part of the behaviour is unaffected, but
load success additionally needs the dates to parse. -/
theorem C6_counterexample :
    wtC6a.header.filter isPrecipName = [] ∧
    load_data isoParse wtC6a = none := by decide

/-- C6 (amended): the absence of a precipitation-like column is never itself
an error: whenever the load succeeds, the output table has no
`Precipitation` field, and every Precipitation-dependent chart section of
the analysis page is skipped without raising. -/
theorem C6_amended_no_precip (p : Cell → DRes) (t : Table) (out : Table)
    (hwf : t.WF) (hpcf : t.header.filter isPrecipName = [])
    (hload : load_data p t = some out) :
    "Precipitation" ∉ out.header ∧
    ("Temp_Mean" ∈ out.header → ∃ secs, analysisPage out = Except.ok secs) ∧
    (∀ secs, analysisPage out = Except.ok secs →
      Sec.precipChart ∉ secs ∧ Sec.precipBox ∉ secs) := by
  have h1 : "Precipitation" ∉ out.header := by
    rw [load_header p t out hwf hload]
    exact stage8_no_precip p t hwf hpcf
  refine ⟨h1, ?_, ?_⟩
  · intro hT
    unfold analysisPage
    rw [if_pos hT]
    exact ⟨_, rfl⟩
  · intro secs hsecs
    unfold analysisPage at hsecs
    by_cases hT : "Temp_Mean" ∈ out.header
    · rw [if_pos hT] at hsecs
      simp only [if_neg h1] at hsecs
      cases hsecs
      constructor <;> simp
    · rw [if_neg hT] at hsecs
      cases hsecs

/-- C6 witness: the amended theorem applied to a precipitation-free table
whose load succeeds. -/
theorem C6_amended_no_precip_witness :
    ∃ out, load_data isoParse wtC6b = some out ∧
      ("Precipitation" ∉ out.header ∧
        ("Temp_Mean" ∈ out.header → ∃ secs, analysisPage out = Except.ok secs) ∧
        (∀ secs, analysisPage out = Except.ok secs →
          Sec.precipChart ∉ secs ∧ Sec.precipBox ∉ secs)) :=
  ⟨_, rfl, C6_amended_no_precip isoParse wtC6b _ (by decide) (by decide) rfl⟩

/-- C7: the pipeline is deterministic, and the `st.cache_data` memoization is
idempotent: a second invocation on an unchanged input, with the cache state
left by the first, serves the bit-identical table. -/
theorem C7_idempotent (p : Cell → DRes) (t : Table) :
    load_data p t = load_data p t ∧
    (cachedLoad p t (cachedLoad p t none).2).1 = (cachedLoad p t none).1 := by
  refine ⟨rfl, ?_⟩
  cases hl : load_data p t with
  | some u => simp [cachedLoad, hl]
  | none => simp [cachedLoad, hl]

/-- C8 counterexample: an input whose `RR` column holds `-1` loads
successfully and produces `Precipitation = -1`, a negative value — the
pipeline does not guarantee non-negativity for arbitrary inputs. -/
theorem C8_counterexample :
    (load_data isoParse wtC8a).map (fun o => o.getCol "Precipitation")
      = some [Cell.num (-1)] ∧
    ¬ ((0 : Frac) ≤ (-1 : Frac)) := by decide

/-- C8 (amended): for every output row where `Precipitation` is present, its
value is copied verbatim from the first recognized precipitation column of
the corresponding input row; in particular the output values are
non-negative whenever the source column's numeric values are non-negative
(the pipeline itself performs no clamping or validation). -/
theorem C8_amended_precip_verbatim (p : Cell → DRes) (t : Table) (out : Table)
    (hwf : t.WF) (c : String) (rest : List String)
    (hpcf : t.header.filter isPrecipName = c :: rest)
    (hload : load_data p t = some out) :
    out.getCol "Precipitation" =
      (t.rows.filter (keepRow p t)).map
        (fun r => r.getD ((t.colIdx c).getD 0) Cell.na) ∧
    ((∀ v ∈ t.getCol c, ∀ q : Frac, v = Cell.num q → (0 : Frac) ≤ q) →
      ∀ v ∈ out.getCol "Precipitation", ∀ q : Frac,
        v = Cell.num q → (0 : Frac) ≤ q) := by
  obtain ⟨hmem, hcol⟩ := stage8_precip p t hwf c rest hpcf
  have hc : c ∈ t.header :=
    (List.mem_filter.mp (by rw [hpcf]; exact List.mem_cons_self c rest)).1
  have h1 := load_getCol p t out hwf hload "Precipitation" hmem
    (fun r => r.getD ((t.colIdx c).getD 0) Cell.na)
    (by rw [hcol]; exact getCol_eq_idx_read t c hc)
  refine ⟨h1, ?_⟩
  intro hnn v hv q hvq
  rw [h1] at hv
  obtain ⟨r, hr, hrv⟩ := List.mem_map.mp hv
  have hrmem : r ∈ t.rows := List.mem_of_mem_filter hr
  have hvcol : r.getD ((t.colIdx c).getD 0) Cell.na ∈ t.getCol c := by
    rw [getCol_eq_idx_read t c hc]
    exact List.mem_map.mpr ⟨r, hrmem, rfl⟩
  exact hnn _ hvcol q (hrv.trans hvq)

/-- C8 witness: the amended theorem applied to the negative-precipitation
table. -/
theorem C8_amended_precip_verbatim_witness :
    ∃ out, load_data isoParse wtC8a = some out ∧
      (out.getCol "Precipitation" =
        (wtC8a.rows.filter (keepRow isoParse wtC8a)).map
          (fun r => r.getD ((wtC8a.colIdx "RR").getD 0) Cell.na) ∧
      ((∀ v ∈ wtC8a.getCol "RR", ∀ q : Frac, v = Cell.num q → (0 : Frac) ≤ q) →
        ∀ v ∈ out.getCol "Precipitation", ∀ q : Frac,
          v = Cell.num q → (0 : Frac) ≤ q)) :=
  ⟨_, rfl, C8_amended_precip_verbatim isoParse wtC8a _ (by decide) "RR" []
    (by decide) rfl⟩

/-- C9: if the loaded table has no `Temp_Mean` column, rendering the
"2. ANALYSIS" page fails with an unbound-variable (`NameError`) condition,
because the temperature-trend narrative reads `temp_change` outside the
guard that defines it; the narrative is not skipped silently. -/
theorem C9_missing_temp_mean_error (df : Table)
    (h : "Temp_Mean" ∉ df.header) :
    analysisPage df =
      Except.error "NameError: name temp_change is not defined" := by
  unfold analysisPage
  rw [if_neg h]

/-- C9 witness: the error theorem applied to a table without `Temp_Mean`. -/
theorem C9_missing_temp_mean_error_witness :
    analysisPage wtC9 =
      Except.error "NameError: name temp_change is not defined" :=
  C9_missing_temp_mean_error wtC9 (by decide)

/-- C10: enrichment only adds columns: every original column whose name is
not one of the derived names keeps its position, and its values in the
date-surviving rows appear unchanged in the output; a raw column literally
named `Date` is overwritten with the parsed dates. -/
theorem C10_frame (p : Cell → DRes) (t : Table) (out : Table)
    (hwf : t.WF) (hload : load_data p t = some out)
    (c : String) (hc : c ∈ t.header) (hcd : c ∉ derivedNames) :
    out.colIdx c = t.colIdx c ∧
    out.getCol c =
      (t.rows.filter (keepRow p t)).map
        (fun r => r.getD ((t.colIdx c).getD 0) Cell.na) ∧
    out.getCol "Date" =
      (t.rows.filter (keepRow p t)).map
        (fun r => dresCell (toDatetime p (r.getD (dateIdx t) Cell.na))) := by
  obtain ⟨hwf8, hrl8, hext8, hdate8, hmaps8, hmemD8, hpres8⟩ := stage8_facts p t hwf
  obtain ⟨hg8, hi8⟩ := hpres8 c hc hcd
  have hc8 : c ∈ (stage8 p t).header := by
    obtain ⟨L, hL, _⟩ := hext8
    rw [hL]
    exact List.mem_append_left _ hc
  refine ⟨?_, ?_, ?_⟩
  · show idxOfCol c out.header = t.colIdx c
    rw [load_header p t out hwf hload]
    exact hi8
  · exact load_getCol p t out hwf hload c hc8 _
      (by rw [hg8]; exact getCol_eq_idx_read t c hc)
  · exact load_getCol p t out hwf hload "Date" hmemD8 _
      (by rw [hdate8, parsedCol_eq_map])

/-- C10 witness: the frame theorem applied to a table with a passenger
column `Station`. -/
theorem C10_frame_witness :
    ∃ out, load_data isoParse wtC10 = some out ∧
      (out.colIdx "Station" = wtC10.colIdx "Station" ∧
        out.getCol "Station" =
          (wtC10.rows.filter (keepRow isoParse wtC10)).map
            (fun r => r.getD ((wtC10.colIdx "Station").getD 0) Cell.na) ∧
        out.getCol "Date" =
          (wtC10.rows.filter (keepRow isoParse wtC10)).map
            (fun r => dresCell (toDatetime isoParse
              (r.getD (dateIdx wtC10) Cell.na)))) :=
  ⟨_, rfl, C10_frame isoParse wtC10 _ (by decide) rfl "Station"
    (by decide) (by decide)⟩
